import Mathlib

/-!
Verification of the seoq sitemap crawler and multi-page analysis orchestrator.

This file gives a shallow embedding of the core of the repository:

* `normalizeSentence` (src: seo-analyzer, `normalizeSentence`) — pure string
  normalization: trim, collapse whitespace runs, keep only the first sentence.
* the sitemap crawler `analyzeSitemap` (src: seo-sitemap) — bounded recursive
  traversal of sitemap / sitemap-index documents with a visited set and a
  global result budget.
* the bounded-concurrency orchestrator `analyzePages` (src: seo-analyzer) —
  per-page analysis with per-task error containment and selective fatal-error
  escalation.

External collaborators (the network, the XML parser, the URL library, the DOM
cleaner, and the LLM call) are modelled as explicit environment records of
pure functions; the repository's own logic is translated directly from the
TypeScript source.  JavaScript strings are modelled as Lean `String`,
JavaScript numbers that the code compares or validates as `ℚ` (no floating
point arithmetic is performed by the embedded code), and promise-based
control flow as explicit state passing; `throw`/rejected promises become
`Except`.
-/

/-! ## String utilities

`String.prototype.includes` — substring test, used by the source for its
error-message classification. -/

/-- Does `l` start with `pat` (character-wise)? Helper for `strIncludes`. -/
def listStartsWith : List Char → List Char → Bool
  | [], _ => true
  | _ :: _, [] => false
  | p :: ps, c :: cs => p == c && listStartsWith ps cs

/-- Does `pat` occur as a contiguous run somewhere in `l`? -/
def listContainsSeq (pat : List Char) : List Char → Bool
  | [] => listStartsWith pat []
  | c :: cs => listStartsWith pat (c :: cs) || listContainsSeq pat cs

/-- JavaScript `s.includes(pat)`. -/
def strIncludes (s pat : String) : Bool :=
  listContainsSeq pat.data s.data

/-! ## `normalizeSentence` (seo-analyzer)

```ts
function normalizeSentence(text: string): string {
  const normalized = text.trim().replace(/\s+/g, " ");
  const match = normalized.match(/^[^.!?]+[.!?]?/);
  if (match) { return match[0].trim(); }
  return normalized;
}
```
We model the ASCII fragment of JavaScript's `\s` character class, which is
all the source's own string constants use. -/

/-- The ASCII whitespace characters matched by JavaScript `\s` and `trim()`. -/
def jsWhitespace (c : Char) : Bool :=
  c == ' ' || c == '\t' || c == '\n' || c == '\r' || c == '\x0b' || c == '\x0c'

/-- JavaScript `String.prototype.trim` on the character list. -/
def trimChars (l : List Char) : List Char :=
  ((l.dropWhile jsWhitespace).reverse.dropWhile jsWhitespace).reverse

/-- JavaScript `replace(/\s+/g, " ")`: each maximal whitespace run becomes a
single space. -/
def collapseWs : List Char → List Char
  | [] => []
  | [c] => if jsWhitespace c then [' '] else [c]
  | c :: d :: rest =>
    if jsWhitespace c then
      (if jsWhitespace d then collapseWs (d :: rest)
       else ' ' :: collapseWs (d :: rest))
    else c :: collapseWs (d :: rest)

/-- The sentence-terminal punctuation class `[.!?]` of the source regex. -/
def terminalChar (c : Char) : Bool :=
  c == '.' || c == '!' || c == '?'

/-- The regex match `normalized.match(/^[^.!?]+[.!?]?/)`: a nonempty prefix of
non-terminal characters, optionally followed by one terminal character.
Returns `none` exactly when the regex does not match (empty input or input
starting with a terminal character). -/
def firstSentence (l : List Char) : Option (List Char) :=
  if (l.takeWhile fun c => !terminalChar c).isEmpty then none
  else some ((l.takeWhile fun c => !terminalChar c) ++
    (l.dropWhile fun c => !terminalChar c).take 1)

/-- Source: `normalizeSentence` translated from the source. -/
def normalizeSentence (s : String) : String :=
  match firstSentence (collapseWs (trimChars s.data)) with
  | some m => String.mk (trimChars m)
  | none => String.mk (collapseWs (trimChars s.data))

/-- Modelled from the spec: "truncate at the first sentence-terminal
punctuation mark (`.`, `?`, `!`)" inclusively; "if no such punctuation
exists, return the whole normalized string unchanged".  This is the spec's
description of the truncation step, used to compare against the code's
regex-based `normalizeSentence`. -/
def truncAtFirstTerminal (l : List Char) : List Char :=
  (l.takeWhile fun c => !terminalChar c) ++ (l.dropWhile fun c => !terminalChar c).take 1

/-! ## Parsed XML documents and the zod schemas (seo-sitemap)

`fast-xml-parser` turns the sitemap XML into a JavaScript value (strings,
numbers, arrays, plain objects); the zod schemas `sitemapSchema` and
`sitemapIndexSchema` then validate that value.  We model the parsed value
as `JsonValue` and translate each schema as a function
`JsonValue → Option ...` (`none` = zod validation failure).  zod objects are
non-strict: unknown fields are ignored, which the lookup-based translation
reflects.  `z.string().url()` defers to an abstract URL-validity predicate
supplied by the environment. -/

/-- A parsed XML document as produced by `fast-xml-parser` (JS value). -/
inductive JsonValue where
  | str (s : String)
  | num (q : ℚ)
  | arr (elems : List JsonValue)
  | obj (fields : List (String × JsonValue))

/-- Field lookup in a parsed JS object. -/
def getField (fields : List (String × JsonValue)) (k : String) : Option JsonValue :=
  fields.lookup k

/-- Source: `z.string().optional()` on an (optional) object field. -/
def parseOptString : Option JsonValue → Option (Option String)
  | none => some none
  | some (.str s) => some (some s)
  | some _ => none

/-- Source: `z.number().min(0).max(1).optional()` on an (optional) object field. -/
def parseOptNum01 : Option JsonValue → Option (Option ℚ)
  | none => some none
  | some (.num q) => if 0 ≤ q ∧ q ≤ 1 then some (some q) else none
  | some _ => none

/-- A `<url>` entry of a leaf sitemap, i.e. `sitemapUrlEntrySchema`. -/
structure SitemapUrlEntry where
  loc : String
  priority : Option ℚ
  changefreq : Option String
  lastmod : Option String
deriving Repr, DecidableEq

/-- A `<sitemap>` entry of a sitemap index, i.e. `sitemapIndexEntrySchema`. -/
structure SitemapIndexEntry where
  loc : String
  lastmod : Option String
deriving Repr, DecidableEq

/-- Source: `sitemapUrlEntrySchema.parse`: requires a `loc` field that is a valid URL
string; `priority`, `changefreq`, `lastmod` are optional. `validUrl` is the
URL-validity test behind `z.string().url()`. -/
def sitemapUrlEntryParse (validUrl : String → Bool) : JsonValue → Option SitemapUrlEntry
  | .obj fs => do
    let locV ← getField fs "loc"
    let loc ← match locV with
      | .str s => if validUrl s then some s else none
      | _ => none
    let pr ← parseOptNum01 (getField fs "priority")
    let cf ← parseOptString (getField fs "changefreq")
    let lm ← parseOptString (getField fs "lastmod")
    some ⟨loc, pr, cf, lm⟩
  | _ => none

/-- Source: `sitemapIndexEntrySchema.parse`. -/
def sitemapIndexEntryParse (validUrl : String → Bool) : JsonValue → Option SitemapIndexEntry
  | .obj fs => do
    let locV ← getField fs "loc"
    let loc ← match locV with
      | .str s => if validUrl s then some s else none
      | _ => none
    let lm ← parseOptString (getField fs "lastmod")
    some ⟨loc, lm⟩
  | _ => none

/-- Source: `z.union([entrySchema, z.array(entrySchema)])` followed by the source's
`Array.isArray` normalization: a single entry becomes a one-element list, an
array of entries is kept. -/
def parseOneOrMany (p : JsonValue → Option α) (v : JsonValue) : Option (List α) :=
  match p v with
  | some a => some [a]
  | none =>
    match v with
    | .arr es => es.mapM p
    | _ => none

/-- Source: `sitemapIndexSchema.parse`, already normalized to an entry list:
`{ sitemapindex: { sitemap: entry | entry[] } }`. -/
def sitemapIndexSchemaParse (validUrl : String → Bool) (v : JsonValue) :
    Option (List SitemapIndexEntry) :=
  match v with
  | .obj fs =>
    match getField fs "sitemapindex" with
    | some (.obj fs2) =>
      match getField fs2 "sitemap" with
      | some sv => parseOneOrMany (sitemapIndexEntryParse validUrl) sv
      | none => none
    | _ => none
  | _ => none

/-- Source: `sitemapSchema.parse` (leaf sitemap), already normalized to an entry
list: `{ urlset: { url: entry | entry[] } }`. -/
def sitemapSchemaParse (validUrl : String → Bool) (v : JsonValue) :
    Option (List SitemapUrlEntry) :=
  match v with
  | .obj fs =>
    match getField fs "urlset" with
    | some (.obj fs2) =>
      match getField fs2 "url" with
      | some uv => parseOneOrMany (sitemapUrlEntryParse validUrl) uv
      | none => none
    | _ => none
  | _ => none

/-- Source: `isSitemapIndex`: the document counts as a sitemap index exactly when
`sitemapIndexSchema.parse` succeeds (the source wraps the `parse` call in a
`try`/`catch` returning a Boolean). -/
def isSitemapIndex (validUrl : String → Bool) (v : JsonValue) : Bool :=
  (sitemapIndexSchemaParse validUrl v).isSome

/-- The classified shape of a parsed sitemap document. -/
inductive SitemapDoc where
  | index (entries : List SitemapIndexEntry)
  | leaf (entries : List SitemapUrlEntry)
deriving Repr, DecidableEq

/-- The message of the `ZodError` thrown when a well-formed document matches
neither sitemap shape (the exact library text is irrelevant; what matters is
that the traversal fails). -/
def zodErrorMsg : String := "ZodError: document matches neither sitemap shape"

/-- The shape discriminator of `processSitemap`: try the sitemap-index schema
first (`isSitemapIndex`); if and only if it fails, validate as a leaf
sitemap, whose `parse` throws on failure. -/
def classifySitemap (validUrl : String → Bool) (v : JsonValue) : Except String SitemapDoc :=
  match sitemapIndexSchemaParse validUrl v with
  | some es => .ok (.index es)
  | none =>
    match sitemapSchemaParse validUrl v with
    | some es => .ok (.leaf es)
    | none => .error zodErrorMsg

/-! ## The sitemap crawler (seo-sitemap, `analyzeSitemap`)

The crawler's collaborators are gathered in `CrawlEnv`:

* `sites` — the (finite) web the crawl runs against: fetching a URL outside
  the list produces an HTTP 404 response,
* `xmlParse` — `fast-xml-parser`'s `parser.parse`, which either yields a
  parsed value or throws with some message,
* `resolve p b` — `new URL(p, b).toString()`,
* `origin u` / `pathname u` — `new URL(u).origin` / `.pathname`,
* `validUrl` — the URL test behind `z.string().url()`.

The recursive `processSitemap` of the source is translated as an explicit
depth-first worklist (`runCrawl`): the frame stack holds exactly the pending
`processSitemap(url, path)` calls, children of an index document are pushed
in front (depth-first, left-to-right), and the global limit is checked before
working on each frame, exactly as each recursive call and each sibling loop
iteration of the source begins with `if (results.length >= limit) return;`.
Once the limit is reached every pending call in the source returns
immediately without touching the state, which the worklist models by
stopping.  The state also records the list of fetched document URLs in
fetch order (observable network behavior of the source). -/

instance {ε α : Type _} [DecidableEq ε] [DecidableEq α] : DecidableEq (Except ε α) := fun x y =>
  match x, y with
  | .error e, .error f =>
    if h : e = f then .isTrue (by rw [h])
    else .isFalse (by intro hc; injection hc; contradiction)
  | .ok a, .ok b =>
    if h : a = b then .isTrue (by rw [h])
    else .isFalse (by intro hc; injection hc; contradiction)
  | .error _, .ok _ => .isFalse (by intro hc; exact Except.noConfusion hc)
  | .ok _, .error _ => .isFalse (by intro hc; exact Except.noConfusion hc)

/-- Result of `fetch(sitemapUrl)` at the granularity the source inspects:
a successful response with a body, or a non-`ok` response with status code
and status text. -/
inductive FetchResponse where
  | ok (body : String)
  | httpError (status : ℕ) (statusText : String)
deriving Repr, DecidableEq

/-- The crawler's external collaborators. -/
structure CrawlEnv where
  sites : List (String × FetchResponse)
  xmlParse : String → Except String JsonValue
  resolve : String → String → String
  origin : String → String
  pathname : String → String
  validUrl : String → Bool

/-- Source: `const DEFAULT_SITEMAP_PATH = "/sitemap.xml";` -/
def DEFAULT_SITEMAP_PATH : String := "/sitemap.xml"

/-- Source: `path ? new URL(path, url).toString() : new URL(DEFAULT_SITEMAP_PATH, url).toString()`
— computed identically in `fetchSitemap` and in `processSitemap`. -/
def resolveSitemapUrl (env : CrawlEnv) (url : String) (path : Option String) : String :=
  match path with
  | some p => env.resolve p url
  | none => env.resolve DEFAULT_SITEMAP_PATH url

/-- The network: `fetch(sitemapUrl)` against the finite `sites` map. -/
def fetchUrl (env : CrawlEnv) (u : String) : FetchResponse :=
  (env.sites.lookup u).getD (.httpError 404 "Not Found")

/-- Source: `fetchSitemap` from the source: resolve, fetch, and fail with
`Failed to fetch sitemap: <status> <statusText>` on a non-`ok` response. -/
def fetchSitemap (env : CrawlEnv) (url : String) (path : Option String) :
    Except String String :=
  match fetchUrl env (resolveSitemapUrl env url path) with
  | .ok body => .ok body
  | .httpError status statusText =>
    .error ("Failed to fetch sitemap: " ++ toString status ++ " " ++ statusText)

/-- Source: `parseSitemap` from the source: run the XML parser, wrapping its
exception message as `Failed to parse XML: <message>`. -/
def parseSitemap (env : CrawlEnv) (xml : String) : Except String JsonValue :=
  match env.xmlParse xml with
  | .ok v => .ok v
  | .error m => .error ("Failed to parse XML: " ++ m)

/-- Source: `SitemapResult` from the source: `{ url, priority? }`. -/
structure SitemapResult where
  url : String
  priority : Option ℚ
deriving Repr, DecidableEq

/-- Source: `results.push({ url: urlEntry.loc, priority: urlEntry.priority })`. -/
def entryResult (e : SitemapUrlEntry) : SitemapResult :=
  ⟨e.loc, e.priority⟩

/-- One pending `processSitemap(url, path?)` call. -/
structure Frame where
  url : String
  path : Option String
deriving Repr, DecidableEq

/-- The mutable state of one top-level `analyzeSitemap` call: the shared
`results` accumulator, the `visitedUrls` set (as a list), and the fetch log
(instrumentation recording each network fetch actually performed). -/
structure CrawlState where
  results : List SitemapResult
  visitedUrls : List String
  fetched : List String
deriving Repr, DecidableEq

/-- What processing one frame does, before the state update. -/
inductive FrameOut where
  | skip
  | index (children : List Frame)
  | leaf (entries : List SitemapUrlEntry)
deriving Repr

/-- An index entry recursed into:
`const sitemapUrlObj = new URL(sitemapEntry.loc); processSitemap(sitemapUrlObj.origin, sitemapUrlObj.pathname)`. -/
def childFrame (env : CrawlEnv) (e : SitemapIndexEntry) : Frame :=
  ⟨env.origin e.loc, some (env.pathname e.loc)⟩

/-- The body of one `processSitemap` call after its limit check: the visited
check (recording the URL as visited *before* the fetch), the fetch, the
parse, and the shape discrimination.  Returns the frame outcome, the new
visited list, and the URLs fetched (one, or none when skipped). -/
def processFrame (env : CrawlEnv) (f : Frame) (visited : List String) :
    Except String (FrameOut × List String × List String) :=
  if resolveSitemapUrl env f.url f.path ∈ visited then .ok (.skip, visited, [])
  else
    match fetchSitemap env f.url f.path with
    | .error e => .error e
    | .ok xml =>
      match parseSitemap env xml with
      | .error e => .error e
      | .ok parsed =>
        match classifySitemap env.validUrl parsed with
        | .error e => .error e
        | .ok (.index es) =>
          .ok (.index (es.map (childFrame env)),
            resolveSitemapUrl env f.url f.path :: visited,
            [resolveSitemapUrl env f.url f.path])
        | .ok (.leaf es) =>
          .ok (.leaf es, resolveSitemapUrl env f.url f.path :: visited,
            [resolveSitemapUrl env f.url f.path])

/-- The URLs the finite web `env.sites` responds to. -/
def siteUrls (env : CrawlEnv) : List String :=
  env.sites.map Prod.fst

theorem lookup_mem_keys {l : List (String × FetchResponse)} {u : String} {r : FetchResponse}
    (h : l.lookup u = some r) : u ∈ l.map Prod.fst := by
  induction l with
  | nil => simp [List.lookup] at h
  | cons a l ih =>
    rw [List.lookup] at h
    cases hb : u == a.1 with
    | true =>
      rw [List.map_cons]
      exact List.mem_cons.mpr (Or.inl (eq_of_beq hb))
    | false =>
      rw [hb] at h
      exact List.mem_cons_of_mem _ (ih h)

theorem fetchSitemap_ok {env : CrawlEnv} {url : String} {path : Option String} {body : String}
    (h : fetchSitemap env url path = .ok body) :
    resolveSitemapUrl env url path ∈ siteUrls env ∧
      env.sites.lookup (resolveSitemapUrl env url path) = some (.ok body) := by
  unfold fetchSitemap fetchUrl at h
  rcases hl : env.sites.lookup (resolveSitemapUrl env url path) with _ | r
  · rw [hl] at h
    simp [Option.getD] at h
  · rw [hl] at h
    cases r with
    | ok b =>
      simp only [Option.getD] at h
      injection h with hb
      subst hb
      exact ⟨lookup_mem_keys hl, rfl⟩
    | httpError s t => simp [Option.getD] at h

/-- Case analysis of a successful `processFrame`: either the frame was
skipped as already visited (state untouched, nothing fetched), or the
resolved document URL was fresh, belongs to the finite web, was recorded
as visited and fetched. -/
theorem processFrame_ok {env : CrawlEnv} {f : Frame} {visited : List String}
    {out : FrameOut} {v' fl : List String}
    (h : processFrame env f visited = .ok (out, v', fl)) :
    (out = .skip ∧ v' = visited ∧ fl = []) ∨
    (resolveSitemapUrl env f.url f.path ∉ visited ∧
      resolveSitemapUrl env f.url f.path ∈ siteUrls env ∧
      v' = resolveSitemapUrl env f.url f.path :: visited ∧
      fl = [resolveSitemapUrl env f.url f.path] ∧ out ≠ .skip) := by
  unfold processFrame at h
  split at h
  next hm =>
    injection h with h'
    injection h' with h1 h'
    injection h' with h2 h3
    exact Or.inl ⟨h1.symm, h2.symm, h3.symm⟩
  next hm =>
    split at h
    next e heq => cases h
    next xml hf =>
      split at h
      next e heq => cases h
      next parsed hp =>
        split at h
        next e heq => cases h
        next es hc =>
          have hmem := (fetchSitemap_ok hf).1
          injection h with h'
          injection h' with h1 h'
          injection h' with h2 h3
          refine Or.inr ⟨hm, hmem, h2.symm, h3.symm, ?_⟩
          rw [← h1]
          intro hcontra
          exact FrameOut.noConfusion hcontra
        next es hc =>
          have hmem := (fetchSitemap_ok hf).1
          injection h with h'
          injection h' with h1 h'
          injection h' with h2 h3
          refine Or.inr ⟨hm, hmem, h2.symm, h3.symm, ?_⟩
          rw [← h1]
          intro hcontra
          exact FrameOut.noConfusion hcontra

/-- Termination measure: how many of the finite web's URLs are not yet
visited. -/
def unvisitedCount (env : CrawlEnv) (visited : List String) : ℕ :=
  ((siteUrls env).toFinset \ visited.toFinset).card

theorem unvisitedCount_lt (env : CrawlEnv) {su : String} {visited : List String}
    (h1 : su ∈ siteUrls env) (h2 : su ∉ visited) :
    unvisitedCount env (su :: visited) < unvisitedCount env visited := by
  unfold unvisitedCount
  rw [List.toFinset_cons, Finset.sdiff_insert]
  exact Finset.card_erase_lt_of_mem
    (Finset.mem_sdiff.mpr ⟨List.mem_toFinset.mpr h1, fun hm => h2 (List.mem_toFinset.mp hm)⟩)

/-- The leaf loop of `processSitemap`: push each entry in order, checking the
global limit before each append. -/
def appendResults (limit : ℕ) (results : List SitemapResult) :
    List SitemapUrlEntry → List SitemapResult
  | [] => results
  | e :: es =>
    if limit ≤ results.length then results
    else appendResults limit (results ++ [entryResult e]) es

/-- The crawl loop: the source's recursive `processSitemap` as a depth-first
worklist.  Each iteration is one `processSitemap(url, path)` call: global
limit check first, then the visited check / fetch / parse / classify
(`processFrame`), then either recursion into the children of an index
document (pushed in front: depth-first, left-to-right) or the leaf append
loop.  Any error aborts the entire crawl. -/
def runCrawl (env : CrawlEnv) (limit : ℕ) :
    List Frame → CrawlState → Except String CrawlState
  | [], st => .ok st
  | f :: rest, st =>
    if limit ≤ st.results.length then .ok st
    else
      match h : processFrame env f st.visitedUrls with
      | .error e => .error e
      | .ok (out, v', fl) =>
        match out with
        | .skip => runCrawl env limit rest ⟨st.results, v', st.fetched ++ fl⟩
        | .index children =>
          runCrawl env limit (children ++ rest) ⟨st.results, v', st.fetched ++ fl⟩
        | .leaf entries =>
          runCrawl env limit rest
            ⟨appendResults limit st.results entries, v', st.fetched ++ fl⟩
termination_by frames st => (unvisitedCount env st.visitedUrls, frames.length)
decreasing_by
  · rcases processFrame_ok h with ⟨_, hv, _⟩ | ⟨hnm, hmem, hv, _, _⟩
    · rw [hv]
      exact Prod.Lex.right _ (Nat.lt_succ_self _)
    · rw [hv]
      exact Prod.Lex.left _ _ (unvisitedCount_lt env hmem hnm)
  · rcases processFrame_ok h with ⟨hskip, _, _⟩ | ⟨hnm, hmem, hv, _, _⟩
    · exact absurd hskip (by simp)
    · rw [hv]
      exact Prod.Lex.left _ _ (unvisitedCount_lt env hmem hnm)
  · rcases processFrame_ok h with ⟨hskip, _, _⟩ | ⟨hnm, hmem, hv, _, _⟩
    · exact absurd hskip (by simp)
    · rw [hv]
      exact Prod.Lex.left _ _ (unvisitedCount_lt env hmem hnm)

/-- Modelled from the spec: the "pre-order, depth-first flattening of the
sitemap-index tree" — the same deduplicating depth-first traversal with no
result budget.  `runCrawl` is compared against its `limit`-truncation. -/
def runFlatten (env : CrawlEnv) :
    List Frame → CrawlState → Except String CrawlState
  | [], st => .ok st
  | f :: rest, st =>
    match h : processFrame env f st.visitedUrls with
    | .error e => .error e
    | .ok (out, v', fl) =>
      match out with
      | .skip => runFlatten env rest ⟨st.results, v', st.fetched ++ fl⟩
      | .index children =>
        runFlatten env (children ++ rest) ⟨st.results, v', st.fetched ++ fl⟩
      | .leaf entries =>
        runFlatten env rest
          ⟨st.results ++ entries.map entryResult, v', st.fetched ++ fl⟩
termination_by frames st => (unvisitedCount env st.visitedUrls, frames.length)
decreasing_by
  · rcases processFrame_ok h with ⟨_, hv, _⟩ | ⟨hnm, hmem, hv, _, _⟩
    · rw [hv]
      exact Prod.Lex.right _ (Nat.lt_succ_self _)
    · rw [hv]
      exact Prod.Lex.left _ _ (unvisitedCount_lt env hmem hnm)
  · rcases processFrame_ok h with ⟨hskip, _, _⟩ | ⟨hnm, hmem, hv, _, _⟩
    · exact absurd hskip (by simp)
    · rw [hv]
      exact Prod.Lex.left _ _ (unvisitedCount_lt env hmem hnm)
  · rcases processFrame_ok h with ⟨hskip, _, _⟩ | ⟨hnm, hmem, hv, _, _⟩
    · exact absurd hskip (by simp)
    · rw [hv]
      exact Prod.Lex.left _ _ (unvisitedCount_lt env hmem hnm)

/-- Fuel-indexed companion of `runCrawl`, used only to evaluate concrete
crawls by kernel reduction (`runCrawl` itself is defined by well-founded
recursion and does not reduce definitionally): `none` means the fuel ran
out, and any `some` answer agrees with `runCrawl`
(`runCrawlFuel_sound`). -/
def runCrawlFuel (env : CrawlEnv) (limit : ℕ) :
    ℕ → List Frame → CrawlState → Option (Except String CrawlState)
  | 0, _, _ => none
  | _ + 1, [], st => some (.ok st)
  | fuel + 1, f :: rest, st =>
    if limit ≤ st.results.length then some (.ok st)
    else
      match processFrame env f st.visitedUrls with
      | .error e => some (.error e)
      | .ok (out, v', fl) =>
        match out with
        | .skip => runCrawlFuel env limit fuel rest ⟨st.results, v', st.fetched ++ fl⟩
        | .index children =>
          runCrawlFuel env limit fuel (children ++ rest) ⟨st.results, v', st.fetched ++ fl⟩
        | .leaf entries =>
          runCrawlFuel env limit fuel rest
            ⟨appendResults limit st.results entries, v', st.fetched ++ fl⟩

theorem runCrawlFuel_sound (env : CrawlEnv) (limit : ℕ) :
    ∀ fuel frames st r, runCrawlFuel env limit fuel frames st = some r →
      runCrawl env limit frames st = r := by
  intro fuel
  induction fuel with
  | zero =>
    intro frames st r h
    exact absurd h (by simp [runCrawlFuel])
  | succ fuel ih =>
    intro frames st r h
    cases frames with
    | nil =>
      simp only [runCrawlFuel, Option.some.injEq] at h
      rw [runCrawl.eq_1, h]
    | cons f rest =>
      rw [runCrawl.eq_2]
      simp only [runCrawlFuel] at h
      by_cases hlim : limit ≤ st.results.length
      · rw [if_pos hlim] at h ⊢
        injection h
      · rw [if_neg hlim] at h ⊢
        split
        next e heq =>
          simp only [heq, Option.some.injEq] at h
          exact h
        next out v' fl heq =>
          simp only [heq] at h
          cases out with
          | skip => exact ih _ _ _ h
          | index children => exact ih _ _ _ h
          | leaf entries => exact ih _ _ _ h

/-- Fuel-indexed companion of `runFlatten`, analogous to `runCrawlFuel`. -/
def runFlattenFuel (env : CrawlEnv) :
    ℕ → List Frame → CrawlState → Option (Except String CrawlState)
  | 0, _, _ => none
  | _ + 1, [], st => some (.ok st)
  | fuel + 1, f :: rest, st =>
    match processFrame env f st.visitedUrls with
    | .error e => some (.error e)
    | .ok (out, v', fl) =>
      match out with
      | .skip => runFlattenFuel env fuel rest ⟨st.results, v', st.fetched ++ fl⟩
      | .index children =>
        runFlattenFuel env fuel (children ++ rest) ⟨st.results, v', st.fetched ++ fl⟩
      | .leaf entries =>
        runFlattenFuel env fuel rest
          ⟨st.results ++ entries.map entryResult, v', st.fetched ++ fl⟩

theorem runFlattenFuel_sound (env : CrawlEnv) :
    ∀ fuel frames st r, runFlattenFuel env fuel frames st = some r →
      runFlatten env frames st = r := by
  intro fuel
  induction fuel with
  | zero =>
    intro frames st r h
    exact absurd h (by simp [runFlattenFuel])
  | succ fuel ih =>
    intro frames st r h
    cases frames with
    | nil =>
      simp only [runFlattenFuel, Option.some.injEq] at h
      rw [runFlatten.eq_1, h]
    | cons f rest =>
      rw [runFlatten.eq_2]
      simp only [runFlattenFuel] at h
      split
      next e heq =>
        simp only [heq, Option.some.injEq] at h
        exact h
      next out v' fl heq =>
        simp only [heq] at h
        cases out with
        | skip => exact ih _ _ _ h
        | index children => exact ih _ _ _ h
        | leaf entries => exact ih _ _ _ h

/-- The empty per-call state (`results = []`, `visitedUrls = new Set()`). -/
def initialCrawlState : CrawlState := ⟨[], [], []⟩

/-- Source: `analyzeSitemap(baseUrl, sitemapPath, limit)`: run `processSitemap`
starting from the base frame and return the accumulated results.  (The
source defaults `sitemapPath` to `DEFAULT_SITEMAP_PATH` and `limit` to 25;
callers here always pass them explicitly.) -/
def analyzeSitemap (env : CrawlEnv) (baseUrl sitemapPath : String) (limit : ℕ) :
    Except String (List SitemapResult) :=
  (runCrawl env limit [⟨baseUrl, some sitemapPath⟩] initialCrawlState).map CrawlState.results

/-- Source: `limitSchema = z.number().int().min(1).max(100)` from the schemas module,
on a JavaScript number modelled as `ℚ`. -/
def limitSchemaCheck (q : ℚ) : Bool :=
  q.den == 1 && decide (1 ≤ q) && decide (q ≤ 100)

/-! ### Concrete crawl environments

Small closed worlds used to exercise the crawler on the scenarios named by
the spec: a plain leaf sitemap with five entries, a self-referencing sitemap
index `A -> A`, and an index listing the same child twice `A -> B, B`. -/

/-- A leaf `<url>` entry with no optional fields, as parsed XML. -/
def urlObjJ (u : String) : JsonValue := .obj [("loc", .str u)]

/-- Parsed XML of a leaf sitemap with five `<url>` entries. -/
def leaf5Json : JsonValue :=
  .obj [("urlset", .obj [("url", .arr [urlObjJ "http://a.x/p1", urlObjJ "http://a.x/p2",
    urlObjJ "http://a.x/p3", urlObjJ "http://a.x/p4", urlObjJ "http://a.x/p5"])])]

/-- World with a single leaf sitemap of five entries at
`http://a.x/sitemap.xml`. -/
def envLeaf5 : CrawlEnv where
  sites := [("http://a.x/sitemap.xml", .ok "LEAF5")]
  xmlParse := fun s => if s = "LEAF5" then .ok leaf5Json else .error "bad"
  resolve := fun p b => b ++ p
  origin := fun _ => "http://a.x"
  pathname := fun u => u.drop 10
  validUrl := fun _ => true

/-- Final crawl state for `envLeaf5` with `limit = 3`. -/
def leaf5State : CrawlState :=
  ⟨[⟨"http://a.x/p1", none⟩, ⟨"http://a.x/p2", none⟩, ⟨"http://a.x/p3", none⟩],
    ["http://a.x/sitemap.xml"], ["http://a.x/sitemap.xml"]⟩

/-- Final crawl state for `envLeaf5` with no limit (all five entries). -/
def leaf5StateAll : CrawlState :=
  ⟨[⟨"http://a.x/p1", none⟩, ⟨"http://a.x/p2", none⟩, ⟨"http://a.x/p3", none⟩,
      ⟨"http://a.x/p4", none⟩, ⟨"http://a.x/p5", none⟩],
    ["http://a.x/sitemap.xml"], ["http://a.x/sitemap.xml"]⟩

/-- Parsed XML of a sitemap index whose single child is the index's own URL
(`A -> A`). -/
def selfIdxJson : JsonValue :=
  .obj [("sitemapindex", .obj [("sitemap", urlObjJ "http://a.x/sitemap.xml")])]

/-- World with a self-referencing sitemap index at `http://a.x/sitemap.xml`. -/
def envSelf : CrawlEnv where
  sites := [("http://a.x/sitemap.xml", .ok "IDXSELF")]
  xmlParse := fun s => if s = "IDXSELF" then .ok selfIdxJson else .error "bad"
  resolve := fun p b => b ++ p
  origin := fun _ => "http://a.x"
  pathname := fun u => u.drop 10
  validUrl := fun _ => true

/-- Parsed XML of a sitemap index listing the same child `B` twice. -/
def dupIdxJson : JsonValue :=
  .obj [("sitemapindex", .obj [("sitemap",
    .arr [urlObjJ "http://a.x/b.xml", urlObjJ "http://a.x/b.xml"])])]

/-- Parsed XML of the leaf sitemap `B` with one entry. -/
def leafBJson : JsonValue :=
  .obj [("urlset", .obj [("url", urlObjJ "http://a.x/pb")])]

/-- World where the root index lists child sitemap `B` twice (`A -> B, B`). -/
def envDup : CrawlEnv where
  sites := [("http://a.x/sitemap.xml", .ok "IDXDUP"), ("http://a.x/b.xml", .ok "LEAFB")]
  xmlParse := fun s =>
    if s = "IDXDUP" then .ok dupIdxJson
    else if s = "LEAFB" then .ok leafBJson
    else .error "bad"
  resolve := fun p b => b ++ p
  origin := fun _ => "http://a.x"
  pathname := fun u => u.drop 10
  validUrl := fun _ => true

/-- Final crawl state for `envDup`: `B` is fetched exactly once even though
it is listed twice. -/
def dupState : CrawlState :=
  ⟨[⟨"http://a.x/pb", none⟩],
    ["http://a.x/b.xml", "http://a.x/sitemap.xml"],
    ["http://a.x/sitemap.xml", "http://a.x/b.xml"]⟩

/-! ### Crawl invariants -/

/-- Non-dependent unfolding of one `runCrawl` step. -/
theorem runCrawl_cons (env : CrawlEnv) (limit : ℕ) (f : Frame) (rest : List Frame)
    (st : CrawlState) :
    runCrawl env limit (f :: rest) st =
      if limit ≤ st.results.length then .ok st
      else
        match processFrame env f st.visitedUrls with
        | .error e => .error e
        | .ok (out, v', fl) =>
          match out with
          | .skip => runCrawl env limit rest ⟨st.results, v', st.fetched ++ fl⟩
          | .index children =>
            runCrawl env limit (children ++ rest) ⟨st.results, v', st.fetched ++ fl⟩
          | .leaf entries =>
            runCrawl env limit rest
              ⟨appendResults limit st.results entries, v', st.fetched ++ fl⟩ := by
  rw [runCrawl.eq_2]
  by_cases hlim : limit ≤ st.results.length
  · rw [if_pos hlim, if_pos hlim]
  · rw [if_neg hlim, if_neg hlim]
    split
    next e heq => simp only [heq]
    next out v' fl heq =>
      simp only [heq]
      cases out <;> rfl

/-- Non-dependent unfolding of one `runFlatten` step. -/
theorem runFlatten_cons (env : CrawlEnv) (f : Frame) (rest : List Frame)
    (st : CrawlState) :
    runFlatten env (f :: rest) st =
      match processFrame env f st.visitedUrls with
      | .error e => .error e
      | .ok (out, v', fl) =>
        match out with
        | .skip => runFlatten env rest ⟨st.results, v', st.fetched ++ fl⟩
        | .index children =>
          runFlatten env (children ++ rest) ⟨st.results, v', st.fetched ++ fl⟩
        | .leaf entries =>
          runFlatten env rest
            ⟨st.results ++ entries.map entryResult, v', st.fetched ++ fl⟩ := by
  rw [runFlatten.eq_2]
  split
  next e heq => simp only [heq]
  next out v' fl heq =>
    simp only [heq]
    cases out <;> rfl

theorem appendResults_length_le (limit : ℕ) :
    ∀ es res, res.length ≤ limit → (appendResults limit res es).length ≤ limit := by
  intro es
  induction es with
  | nil => intro res h; exact h
  | cons e es ih =>
    intro res h
    rw [appendResults]
    by_cases hl : limit ≤ res.length
    · rw [if_pos hl]; exact h
    · rw [if_neg hl]
      refine ih _ ?_
      rw [List.length_append]
      simp only [List.length_singleton]
      omega

/-- The leaf loop appends exactly the first `limit - |results|` entries. -/
theorem appendResults_eq_take (limit : ℕ) :
    ∀ es res, appendResults limit res es =
      res ++ (es.map entryResult).take (limit - res.length) := by
  intro es
  induction es with
  | nil => intro res; simp [appendResults]
  | cons e es ih =>
    intro res
    rw [appendResults]
    by_cases hl : limit ≤ res.length
    · rw [if_pos hl]
      have : limit - res.length = 0 := by omega
      simp [this]
    · rw [if_neg hl]
      rw [ih]
      have hk : limit - res.length = (limit - (res.length + 1)) + 1 := by omega
      rw [List.map_cons, hk, List.take_succ_cons]
      simp [List.append_assoc]

/-- The accumulated result list never exceeds the limit. -/
theorem runCrawl_length_le (env : CrawlEnv) (limit : ℕ) :
    ∀ frames st, st.results.length ≤ limit →
      ∀ st', runCrawl env limit frames st = .ok st' → st'.results.length ≤ limit := by
  intro frames st
  induction frames, st using runCrawl.induct env limit with
  | case1 st =>
    intro h st' hr
    rw [runCrawl.eq_1] at hr
    injection hr with hh
    rw [← hh]; exact h
  | case2 f rest st hlim =>
    intro h st' hr
    rw [runCrawl_cons, if_pos hlim] at hr
    injection hr with hh
    rw [← hh]; exact h
  | case3 f rest st hlim e heq =>
    intro h st' hr
    rw [runCrawl_cons, if_neg hlim] at hr
    simp only [heq] at hr
    exact Except.noConfusion hr
  | case4 f rest st hlim v' fl heq _ ih =>
    intro h st' hr
    rw [runCrawl_cons, if_neg hlim] at hr
    simp only [heq] at hr
    exact ih h st' hr
  | case5 f rest st hlim v' fl children heq _ ih =>
    intro h st' hr
    rw [runCrawl_cons, if_neg hlim] at hr
    simp only [heq] at hr
    exact ih h st' hr
  | case6 f rest st hlim v' fl entries heq _ ih =>
    intro h st' hr
    rw [runCrawl_cons, if_neg hlim] at hr
    simp only [heq] at hr
    exact ih (appendResults_length_le limit entries st.results h) st' hr

/-- The fetch log stays duplicate-free: a URL is fetched only when it was not
yet in the visited set, and every previously fetched URL is in the visited
set. -/
theorem runCrawl_fetched_nodup (env : CrawlEnv) (limit : ℕ) :
    ∀ frames st, st.fetched.Nodup → (∀ u ∈ st.fetched, u ∈ st.visitedUrls) →
      ∀ st', runCrawl env limit frames st = .ok st' → st'.fetched.Nodup := by
  intro frames st
  induction frames, st using runCrawl.induct env limit with
  | case1 st =>
    intro hnd hsub st' hr
    rw [runCrawl.eq_1] at hr
    injection hr with hh
    rw [← hh]; exact hnd
  | case2 f rest st hlim =>
    intro hnd hsub st' hr
    rw [runCrawl_cons, if_pos hlim] at hr
    injection hr with hh
    rw [← hh]; exact hnd
  | case3 f rest st hlim e heq =>
    intro hnd hsub st' hr
    rw [runCrawl_cons, if_neg hlim] at hr
    simp only [heq] at hr
    exact Except.noConfusion hr
  | case4 f rest st hlim v' fl heq _ ih =>
    intro hnd hsub st' hr
    rw [runCrawl_cons, if_neg hlim] at hr
    simp only [heq] at hr
    rcases processFrame_ok heq with ⟨_, hv, hfl⟩ | ⟨_, _, _, _, hns⟩
    · subst hv; subst hfl
      exact ih (by simpa using hnd) (by simpa using hsub) st' hr
    · exact absurd rfl hns
  | case5 f rest st hlim v' fl children heq _ ih =>
    intro hnd hsub st' hr
    rw [runCrawl_cons, if_neg hlim] at hr
    simp only [heq] at hr
    rcases processFrame_ok heq with ⟨hsk, _, _⟩ | ⟨hnm, _, hv, hfl, _⟩
    · exact absurd hsk (by simp)
    · subst hv; subst hfl
      refine ih ?_ ?_ st' hr
      · rw [List.nodup_append]
        refine ⟨hnd, List.nodup_singleton _, ?_⟩
        intro u hu hu1
        rw [List.mem_singleton] at hu1
        subst hu1
        exact hnm (hsub _ hu)
      · intro u hu
        rcases List.mem_append.mp hu with hu | hu
        · exact List.mem_cons_of_mem _ (hsub u hu)
        · rw [List.mem_singleton] at hu
          subst hu
          exact List.mem_cons_self _ _
  | case6 f rest st hlim v' fl entries heq _ ih =>
    intro hnd hsub st' hr
    rw [runCrawl_cons, if_neg hlim] at hr
    simp only [heq] at hr
    rcases processFrame_ok heq with ⟨hsk, _, _⟩ | ⟨hnm, _, hv, hfl, _⟩
    · exact absurd hsk (by simp)
    · subst hv; subst hfl
      refine ih ?_ ?_ st' hr
      · rw [List.nodup_append]
        refine ⟨hnd, List.nodup_singleton _, ?_⟩
        intro u hu hu1
        rw [List.mem_singleton] at hu1
        subst hu1
        exact hnm (hsub _ hu)
      · intro u hu
        rcases List.mem_append.mp hu with hu | hu
        · exact List.mem_cons_of_mem _ (hsub u hu)
        · rw [List.mem_singleton] at hu
          subst hu
          exact List.mem_cons_self _ _

/-- Source: `runFlatten` only ever appends to the result accumulator. -/
theorem runFlatten_results_prefix (env : CrawlEnv) :
    ∀ frames st fin, runFlatten env frames st = .ok fin →
      ∃ t, fin.results = st.results ++ t := by
  intro frames st
  induction frames, st using runFlatten.induct env with
  | case1 st =>
    intro fin hr
    rw [runFlatten.eq_1] at hr
    injection hr with hh
    exact ⟨[], by rw [← hh, List.append_nil]⟩
  | case2 f rest st e heq =>
    intro fin hr
    rw [runFlatten_cons] at hr
    simp only [heq] at hr
    exact Except.noConfusion hr
  | case3 f rest st v' fl heq _ ih =>
    intro fin hr
    rw [runFlatten_cons] at hr
    simp only [heq] at hr
    exact ih fin hr
  | case4 f rest st v' fl children heq _ ih =>
    intro fin hr
    rw [runFlatten_cons] at hr
    simp only [heq] at hr
    exact ih fin hr
  | case5 f rest st v' fl entries heq _ ih =>
    intro fin hr
    rw [runFlatten_cons] at hr
    simp only [heq] at hr
    rcases ih fin hr with ⟨t, ht⟩
    exact ⟨entries.map entryResult ++ t, by rw [ht, List.append_assoc]⟩

/-- Coupling of the budgeted crawl with the unbudgeted flattening: whenever
the flattening run succeeds, the budgeted run succeeds and its result list is
the `limit`-prefix of the flattening's.  The two runs share visited set and
fetch log and proceed in lockstep; the budgeted accumulator is always the
`limit`-truncation of the unbudgeted one, and they agree while the budget is
not exhausted. -/
theorem runCrawl_refines_flatten (env : CrawlEnv) (limit : ℕ) :
    ∀ frames stu, ∀ fin, runFlatten env frames stu = .ok fin →
      ∀ stl : CrawlState, stl.visitedUrls = stu.visitedUrls → stl.fetched = stu.fetched →
        stl.results = stu.results.take limit →
        (stl.results.length < limit → stl.results = stu.results) →
        ∃ stl', runCrawl env limit frames stl = .ok stl' ∧
          stl'.results = fin.results.take limit := by
  intro frames stu
  induction frames, stu using runFlatten.induct env with
  | case1 stu =>
    intro fin hflat stl hv hf htake hlt
    rw [runFlatten.eq_1] at hflat
    injection hflat with hh
    subst hh
    exact ⟨stl, by rw [runCrawl.eq_1], htake⟩
  | case2 f rest stu e heq =>
    intro fin hflat stl hv hf htake hlt
    rw [runFlatten_cons] at hflat
    simp only [heq] at hflat
    exact Except.noConfusion hflat
  | case3 f rest stu v' fl heq _ ih =>
    intro fin hflat stl hv hf htake hlt
    rw [runFlatten_cons] at hflat
    simp only [heq] at hflat
    by_cases hlim : limit ≤ stl.results.length
    · refine ⟨stl, by rw [runCrawl_cons, if_pos hlim], ?_⟩
      rcases runFlatten_results_prefix env rest _ fin hflat with ⟨t, ht⟩
      have hlen : limit ≤ stu.results.length := by
        have h2 : stl.results.length = min limit stu.results.length := by
          rw [htake, List.length_take]
        omega
      rw [ht]
      simp only []
      rw [List.take_append_of_le_length hlen]
      exact htake
    · rcases ih fin hflat ⟨stl.results, v', stl.fetched ++ fl⟩ rfl (by rw [hf]) htake hlt
        with ⟨stl', hcr, hres⟩
      refine ⟨stl', ?_, hres⟩
      rw [runCrawl_cons, if_neg hlim, hv]
      simp only [heq]
      exact hcr
  | case4 f rest stu v' fl children heq _ ih =>
    intro fin hflat stl hv hf htake hlt
    rw [runFlatten_cons] at hflat
    simp only [heq] at hflat
    by_cases hlim : limit ≤ stl.results.length
    · refine ⟨stl, by rw [runCrawl_cons, if_pos hlim], ?_⟩
      rcases runFlatten_results_prefix env _ _ fin hflat with ⟨t, ht⟩
      have hlen : limit ≤ stu.results.length := by
        have h2 : stl.results.length = min limit stu.results.length := by
          rw [htake, List.length_take]
        omega
      rw [ht]
      simp only []
      rw [List.take_append_of_le_length hlen]
      exact htake
    · rcases ih fin hflat ⟨stl.results, v', stl.fetched ++ fl⟩ rfl (by rw [hf]) htake hlt
        with ⟨stl', hcr, hres⟩
      refine ⟨stl', ?_, hres⟩
      rw [runCrawl_cons, if_neg hlim, hv]
      simp only [heq]
      exact hcr
  | case5 f rest stu v' fl entries heq _ ih =>
    intro fin hflat stl hv hf htake hlt
    rw [runFlatten_cons] at hflat
    simp only [heq] at hflat
    by_cases hlim : limit ≤ stl.results.length
    · refine ⟨stl, by rw [runCrawl_cons, if_pos hlim], ?_⟩
      rcases runFlatten_results_prefix env rest _ fin hflat with ⟨t, ht⟩
      have hlen : limit ≤ stu.results.length := by
        have h2 : stl.results.length = min limit stu.results.length := by
          rw [htake, List.length_take]
        omega
      rw [ht]
      simp only []
      rw [List.append_assoc,
        List.take_append_of_le_length hlen]
      exact htake
    · have hres_eq : stl.results = stu.results := hlt (by omega)
      have hrlen : stu.results.length < limit := by rw [← hres_eq]; omega
      have htake2 : appendResults limit stl.results entries =
          (stu.results ++ entries.map entryResult).take limit := by
        rw [appendResults_eq_take, hres_eq, List.take_append_eq_append_take,
          List.take_of_length_le (Nat.le_of_lt hrlen)]
      have hlt2 : (appendResults limit stl.results entries).length < limit →
          appendResults limit stl.results entries =
            stu.results ++ entries.map entryResult := by
        intro hlen2
        rw [appendResults_eq_take, hres_eq] at hlen2 ⊢
        have hmaplen : (entries.map entryResult).length < limit - stu.results.length := by
          rw [List.length_append, List.length_take] at hlen2
          omega
        rw [List.take_of_length_le (Nat.le_of_lt hmaplen)]
      rcases ih fin hflat
          ⟨appendResults limit stl.results entries, v', stl.fetched ++ fl⟩ rfl (by rw [hf])
          htake2 hlt2 with ⟨stl', hcr, hres⟩
      refine ⟨stl', ?_, hres⟩
      rw [runCrawl_cons, if_neg hlim, hv]
      simp only [heq]
      exact hcr

/-! ## The per-page analyzer and orchestrator (seo-analyzer)

`analyzePages` fans the per-page analyzer out over the URL list with a
`p-limit` concurrency ceiling.  Its collaborators are gathered in `PageEnv`:

* `apiKeyPresent` — whether `process.env.OPENAI_API_KEY` is set,
* `fetchPage url` — the page fetcher (`fetchPageContent`), yielding raw HTML
  or a thrown value,
* `cleanHtml` — the cheerio-based `cleanHtmlForSEO` transform,
* `llm url html` — the agent invocation plus structured-output validation
  (`agent.invoke` + `SEOAnalysisResultSchema.parse`), yielding the validated
  issue list or a thrown value.

A JavaScript `throw` can carry a non-`Error` value, which the source handles
separately (`error instanceof Error`); `JsError` keeps that distinction.

Cooperative concurrency is modelled in two ways.  `runSeq` is the exact
execution for `concurrency = 1` (`p-limit(1)` admits tasks strictly in input
order, one at a time): it records the observable callback events
(`onProgress` at admission, the start of page work, `onComplete` after each
task) in order.  `runSched` models an arbitrary interleaving: admission
order is fixed, but the order in which tasks complete — and hence append to
the shared `results` accumulator — is an arbitrary permutation `order` of
the task indices; each completion appends that task's single result, and a
fatal error rejects the whole orchestrator. -/

/-- Severity enum of `SEOIssueSchema` (`"High" | "Medium" | "Low"`). -/
inductive Severity where
  | high
  | medium
  | low
deriving Repr, DecidableEq

/-- Source: `SEOIssue`: `{ issue, severity, howToFix }`. -/
structure SEOIssue where
  issue : String
  severity : Severity
  howToFix : String
deriving Repr, DecidableEq

/-- Source: `PageAnalysisResult`: `{ url, issues }`. -/
structure PageAnalysisResult where
  url : String
  issues : List SEOIssue
deriving Repr, DecidableEq

/-- A JavaScript thrown value: an `Error` with its `.message`, or any
non-`Error` value. -/
inductive JsError where
  | err (msg : String)
  | nonError
deriving Repr, DecidableEq

/-- Outcome of the agent invocation + structured-output validation. -/
inductive LLMOutcome where
  | ok (issues : List SEOIssue)
  | err (msg : String)
  | errNonError
deriving Repr, DecidableEq

/-- The per-page analyzer's external collaborators. -/
structure PageEnv where
  apiKeyPresent : Bool
  fetchPage : String → Except JsError String
  cleanHtml : String → String
  llm : String → String → LLMOutcome

/-- The message thrown when `process.env.OPENAI_API_KEY` is unset. -/
def missingKeyMsg : String :=
  "OPENAI_API_KEY environment variable is required. Please set it before running the analysis."

/-- The message `analyzeSEOIssues` substitutes for authentication errors. -/
def invalidKeyMsg : String :=
  "Invalid OpenAI API key. Please check your OPENAI_API_KEY environment variable."

/-- The `catch` block of `analyzeSEOIssues`: re-wrap the extraction error's
message by substring classification (rate limit, authentication, validation,
generic). -/
def classifyLLMError (url m : String) : String :=
  if strIncludes m "rate limit" || strIncludes m "429" then
    "OpenAI API rate limit exceeded. Please wait a moment and try again, or reduce concurrency. Original error: " ++ m
  else if strIncludes m "401" || strIncludes m "authentication" || strIncludes m "Invalid API key" then
    invalidKeyMsg
  else if strIncludes m "validation" || strIncludes m "schema" || strIncludes m "parse" then
    "Failed to validate AI response for " ++ url ++ ": " ++ m
  else
    "Failed to analyze SEO issues: " ++ m

/-- Post-processing of one issue: normalize both free-text fields to single
sentences. -/
def normalizeIssue (i : SEOIssue) : SEOIssue :=
  ⟨normalizeSentence i.issue, i.severity, normalizeSentence i.howToFix⟩

/-- Source: `analyzeSEOIssues(url, html, maxIssues)`: throw if the API key is
missing (before the `try`, hence never re-wrapped), otherwise run the agent;
on success cap the issues at `maxIssues` and normalize each to a single
sentence, on failure re-wrap the message via `classifyLLMError` (a non-
`Error` throw becomes the generic unknown-error `Error`). -/
def analyzeSEOIssues (env : PageEnv) (url html : String) (maxIssues : ℕ) :
    Except JsError (List SEOIssue) :=
  if env.apiKeyPresent = false then .error (.err missingKeyMsg)
  else
    match env.llm url html with
    | .ok issues => .ok ((issues.take maxIssues).map normalizeIssue)
    | .err m => .error (.err (classifyLLMError url m))
    | .errNonError => .error (.err "Failed to analyze SEO issues: Unknown error")

/-- Source: `analyzePage(url, maxIssues, browser?)`: fetch, clean, extract. -/
def analyzePage (env : PageEnv) (url : String) (maxIssues : ℕ) :
    Except JsError PageAnalysisResult := do
  let rawHtml ← env.fetchPage url
  let issues ← analyzeSEOIssues env url (env.cleanHtml rawHtml) maxIssues
  return ⟨url, issues⟩

/-- The rate-limit advisory of the synthetic error issue. -/
def rateLimitFix : String :=
  "Wait a moment and try again, or reduce concurrency with --concurrency option."

/-- The generic advisory of the synthetic error issue. -/
def genericFix : String :=
  "Check if the URL is accessible and try again."

/-- The orchestrator's fatal-error test:
`error.message.includes("OPENAI_API_KEY") || error.message.includes("Invalid OpenAI API key")`. -/
def isFatalMsg (m : String) : Bool :=
  strIncludes m "OPENAI_API_KEY" || strIncludes m "Invalid OpenAI API key"

/-- The synthetic one-issue result recorded for a non-fatal `Error`. -/
def syntheticErrorResult (url m : String) : PageAnalysisResult :=
  ⟨url, [⟨"Failed to analyze page: " ++ m, .high,
    if strIncludes m "rate limit" then rateLimitFix else genericFix⟩]⟩

/-- The synthetic one-issue result recorded for a non-`Error` throw. -/
def unknownErrorResult (url : String) : PageAnalysisResult :=
  ⟨url, [⟨"Failed to analyze page: Unknown error", .high, genericFix⟩]⟩

/-- What one task does after the `onProgress` call: the result it appends
together with the `onComplete` issue count, or a fatal re-throw. -/
inductive TaskOutcome where
  | done (r : PageAnalysisResult) (completedCount : ℕ)
  | fatal (m : String)
deriving Repr, DecidableEq

/-- The `try`/`catch` body of `analyzePageWithErrorHandling` (minus the
callbacks, which the runners record): on success push the result and report
its issue count; on a fatal `Error` re-throw; on any other `Error` push the
synthetic error result and report one issue; on a non-`Error` throw push the
unknown-error result and report one issue. -/
def analyzePageWithErrorHandling (env : PageEnv) (maxIssues : ℕ) (url : String) :
    TaskOutcome :=
  match analyzePage env url maxIssues with
  | .ok r => .done r r.issues.length
  | .error (.err m) =>
    if isFatalMsg m then .fatal m
    else .done (syntheticErrorResult url m) 1
  | .error .nonError => .done (unknownErrorResult url) 1

/-- Observable callback events of one `analyzePages` run. -/
inductive PageEvent where
  | progress (current total : ℕ) (url : String)
  | pageStart (url : String)
  | complete (url : String) (issueCount : ℕ)
deriving Repr, DecidableEq

/-- The exact execution for `concurrency = 1`: tasks run to completion one
at a time, in input order.  For the task of index `i`: `onProgress(i+1,
total, url)` fires at admission, then the page work starts, then the task
either completes (recording `onComplete(url, count)` and appending its
result) or re-throws a fatal error, rejecting the whole run with the events
so far. -/
def runSeq (env : PageEnv) (maxIssues total : ℕ) :
    List (ℕ × String) → List PageAnalysisResult → List PageEvent →
      List PageEvent × Except String (List PageAnalysisResult)
  | [], acc, evs => (evs, .ok acc)
  | (i, url) :: rest, acc, evs =>
    match analyzePageWithErrorHandling env maxIssues url with
    | .fatal m => (evs ++ [.progress (i+1) total url, .pageStart url], .error m)
    | .done r c =>
      runSeq env maxIssues total rest (acc ++ [r])
        (evs ++ [.progress (i+1) total url, .pageStart url, .complete url c])

/-- Source: `analyzePages(urls, {concurrency: 1, ...})`. -/
def analyzePagesSeq (env : PageEnv) (maxIssues : ℕ) (urls : List String) :
    List PageEvent × Except String (List PageAnalysisResult) :=
  runSeq env maxIssues urls.length urls.enum [] []

/-- Completion-order execution for an arbitrary concurrency ceiling: tasks
are admitted in input order but append their single result to the shared
accumulator in completion order, an arbitrary permutation `order` of the
task indices; a fatal re-throw rejects the whole orchestrator. -/
def runSched (env : PageEnv) (maxIssues : ℕ) (urls : List String) :
    List ℕ → List PageAnalysisResult → Except String (List PageAnalysisResult)
  | [], acc => .ok acc
  | i :: rest, acc =>
    match urls[i]? with
    | none => runSched env maxIssues urls rest acc
    | some url =>
      match analyzePageWithErrorHandling env maxIssues url with
      | .fatal m => .error m
      | .done r _ => runSched env maxIssues urls rest (acc ++ [r])

/-- Source: `analyzePages(urls, options)` under completion order `order`. -/
def analyzePages (env : PageEnv) (maxIssues : ℕ) (urls : List String)
    (order : List ℕ) : Except String (List PageAnalysisResult) :=
  runSched env maxIssues urls order []

/-! ### Orchestrator invariants -/

/-- The result a non-fatal task appends (fallback value for fatal tasks,
which never append). -/
def taskResult (env : PageEnv) (maxIssues : ℕ) (url : String) : PageAnalysisResult :=
  match analyzePageWithErrorHandling env maxIssues url with
  | .done r _ => r
  | .fatal _ => ⟨url, []⟩

/-- The issue count a non-fatal task reports through `onComplete`. -/
def taskCount (env : PageEnv) (maxIssues : ℕ) (url : String) : ℕ :=
  match analyzePageWithErrorHandling env maxIssues url with
  | .done _ c => c
  | .fatal _ => 0

/-- Recognizer for `onProgress` events. -/
def isProgressEvent : PageEvent → Bool
  | .progress _ _ _ => true
  | _ => false

/-- The three observable events of one non-fatal task, in order. -/
def taskTrace (env : PageEnv) (maxIssues total : ℕ) (p : ℕ × String) : List PageEvent :=
  [.progress (p.1+1) total p.2, .pageStart p.2, .complete p.2 (taskCount env maxIssues p.2)]

theorem exceptBind_ok {α β ε : Type _} (a : α) (f : α → Except ε β) :
    (Except.ok a >>= f) = f a := rfl

theorem exceptBind_error {α β ε : Type _} (e : ε) (f : α → Except ε β) :
    ((Except.error e : Except ε α) >>= f) = Except.error e := rfl

/-- A successful `analyzePage` result carries the analyzed URL. -/
theorem analyzePage_url {env : PageEnv} {url : String} {maxIssues : ℕ}
    {r : PageAnalysisResult} (h : analyzePage env url maxIssues = .ok r) :
    r.url = url := by
  unfold analyzePage at h
  rcases hf : env.fetchPage url with e | html
  · rw [hf, exceptBind_error] at h
    exact Except.noConfusion h
  · rw [hf, exceptBind_ok] at h
    rcases ha : analyzeSEOIssues env url (env.cleanHtml html) maxIssues with e | issues
    · rw [ha, exceptBind_error] at h
      exact Except.noConfusion h
    · rw [ha, exceptBind_ok] at h
      injection h with hh
      rw [← hh]

/-- Every task's single appended result carries that task's URL. -/
theorem taskResult_url (env : PageEnv) (maxIssues : ℕ) (url : String) :
    (taskResult env maxIssues url).url = url := by
  unfold taskResult
  rcases ho : analyzePageWithErrorHandling env maxIssues url with ⟨r, c⟩ | m
  · unfold analyzePageWithErrorHandling at ho
    rcases ha : analyzePage env url maxIssues with e | r'
    · rw [ha] at ho
      cases e with
      | err m =>
        by_cases hfm : isFatalMsg m
        · simp [hfm] at ho
        · simp [hfm] at ho
          rw [← ho.1]
          rfl
      | nonError =>
        simp at ho
        rw [← ho.1]
        rfl
    · rw [ha] at ho
      simp at ho
      rw [← ho.1]
      exact analyzePage_url ha
  · rfl

/-- Source: `runSeq` on fatal-free tasks: the event log is the concatenation of the
per-task traces in input order, and the result list is the task results in
input order. -/
theorem runSeq_trace (env : PageEnv) (maxIssues total : ℕ) :
    ∀ pairs acc evs,
      (∀ p ∈ pairs, ∀ m, analyzePageWithErrorHandling env maxIssues p.2 ≠ .fatal m) →
      runSeq env maxIssues total pairs acc evs =
        (evs ++ pairs.flatMap (taskTrace env maxIssues total),
          .ok (acc ++ pairs.map (fun p => taskResult env maxIssues p.2))) := by
  intro pairs
  induction pairs with
  | nil => intro acc evs _; simp [runSeq]
  | cons p rest ih =>
    intro acc evs hnf
    rcases p with ⟨i, url⟩
    rcases ho : analyzePageWithErrorHandling env maxIssues url with ⟨r, c⟩ | m
    · rw [runSeq]
      simp only [ho]
      rw [ih (acc ++ [r]) _ (fun q hq => hnf q (List.mem_cons_of_mem _ hq))]
      have hr : taskResult env maxIssues url = r := by
        unfold taskResult; rw [ho]
      have hc : taskCount env maxIssues url = c := by
        unfold taskCount; rw [ho]
      rw [List.flatMap_cons, List.map_cons, taskTrace, hr, hc]
      simp [List.append_assoc]
    · exact absurd ho (hnf (i, url) (List.mem_cons_self _ _) m)

/-- Filtering the progress events out of concatenated task traces leaves one
`onProgress` event per task, in input order. -/
theorem filter_progress_flatMap (env : PageEnv) (maxIssues total : ℕ) :
    ∀ pairs : List (ℕ × String),
      (pairs.flatMap (taskTrace env maxIssues total)).filter isProgressEvent =
        pairs.map fun p => .progress (p.1+1) total p.2 := by
  intro pairs
  induction pairs with
  | nil => rfl
  | cons p rest ih =>
    rw [List.flatMap_cons, List.map_cons, List.filter_append, ih, taskTrace]
    rfl

/-- Source: `runSched` (success case): the result list is the accumulator followed by
one result per completed task, in completion order. -/
theorem runSched_ok_results (env : PageEnv) (maxIssues : ℕ) (urls : List String) :
    ∀ order acc rs, runSched env maxIssues urls order acc = .ok rs →
      rs = acc ++ order.filterMap
        (fun i => (urls[i]?).map (taskResult env maxIssues)) := by
  intro order
  induction order with
  | nil =>
    intro acc rs h
    rw [runSched] at h
    injection h with hh
    simp [← hh]
  | cons i rest ih =>
    intro acc rs h
    rw [runSched] at h
    rcases hg : urls[i]? with _ | url
    · simp only [hg] at h
      rw [List.filterMap_cons, hg]
      exact ih acc rs h
    · simp only [hg] at h
      rcases ho : analyzePageWithErrorHandling env maxIssues url with ⟨r, c⟩ | m
      · simp only [ho] at h
        have hr : taskResult env maxIssues url = r := by
          unfold taskResult; rw [ho]
        rw [List.filterMap_cons, hg]
        simp only [Option.map_some']
        rw [hr, ih (acc ++ [r]) rs h, List.append_assoc, List.singleton_append]
      · simp only [ho] at h
        exact Except.noConfusion h

/-- Source: `runSched` never gets stuck: with no fatal task in the worklist it
resolves. -/
theorem runSched_ok_of_no_fatal (env : PageEnv) (maxIssues : ℕ) (urls : List String) :
    ∀ order acc,
      (∀ i ∈ order, ∀ url, urls[i]? = some url →
        ∀ m, analyzePageWithErrorHandling env maxIssues url ≠ .fatal m) →
      ∃ rs, runSched env maxIssues urls order acc = .ok rs := by
  intro order
  induction order with
  | nil => intro acc _; exact ⟨acc, rfl⟩
  | cons i rest ih =>
    intro acc hnf
    rcases hg : urls[i]? with _ | url
    · rw [runSched]
      simp only [hg]
      exact ih acc fun j hj => hnf j (List.mem_cons_of_mem _ hj)
    · rcases ho : analyzePageWithErrorHandling env maxIssues url with ⟨r, c⟩ | m
      · rw [runSched]
        simp only [hg, ho]
        exact ih (acc ++ [r]) fun j hj => hnf j (List.mem_cons_of_mem _ hj)
      · exact absurd ho (hnf i (List.mem_cons_self _ _) url hg m)

/-- Source: `runSched` (fatal case): a fatal task in the worklist rejects the whole
run, and the rejection message is some task's fatal message. -/
theorem runSched_fatal (env : PageEnv) (maxIssues : ℕ) (urls : List String) :
    ∀ order acc i url m, i ∈ order → urls[i]? = some url →
      analyzePageWithErrorHandling env maxIssues url = .fatal m →
      ∃ m', runSched env maxIssues urls order acc = .error m' ∧
        ∃ (j : ℕ) (url' : String), urls[j]? = some url' ∧
          analyzePageWithErrorHandling env maxIssues url' = .fatal m' := by
  intro order
  induction order with
  | nil => intro acc i url m hi; exact absurd hi (List.not_mem_nil _)
  | cons j rest ih =>
    intro acc i url m hi hg ho
    rcases hgj : urls[j]? with _ | url'
    · rcases List.mem_cons.mp hi with hij | hir
      · subst hij
        rw [hg] at hgj
        exact Option.noConfusion hgj
      · rw [runSched]
        simp only [hgj]
        exact ih acc i url m hir hg ho
    · rcases hoj : analyzePageWithErrorHandling env maxIssues url' with ⟨r, c⟩ | m'
      · rcases List.mem_cons.mp hi with hij | hir
        · subst hij
          rw [hg] at hgj
          injection hgj with hgj
          subst hgj
          rw [ho] at hoj
          exact TaskOutcome.noConfusion hoj
        · rw [runSched]
          simp only [hgj, hoj]
          exact ih (acc ++ [r]) i url m hir hg ho
      · refine ⟨m', ?_, j, url', hgj, hoj⟩
        rw [runSched]
        simp only [hgj, hoj]

/-- Indexing `List.range` through `getElem?` recovers the list itself. -/
theorem range_filterMap_getElem {α : Type _} (g : String → α) :
    ∀ urls : List String,
      (List.range urls.length).filterMap (fun i => (urls[i]?).map g) = urls.map g := by
  intro urls
  induction urls with
  | nil => rfl
  | cons a l ih =>
    rw [List.length_cons, List.range_succ_eq_map, List.filterMap_cons,
      List.getElem?_cons_zero, List.filterMap_map]
    simp only [Option.map_some']
    rw [List.map_cons]
    congr 1
    rw [← ih]
    apply List.filterMap_congr
    intro i _
    rw [Function.comp_apply, List.getElem?_cons_succ]

/-! ### Whitespace-edge lemmas for `normalizeSentence`

The normalized string `collapseWs (trimChars s)` never starts or ends with
whitespace, so the final `.trim()` the source applies to the regex match is
the identity on it. -/

theorem dropWhile_head_not (p : Char → Bool) :
    ∀ (l : List Char) (c : Char), (l.dropWhile p).head? = some c → p c = false := by
  intro l
  induction l with
  | nil => intro c h; exact Option.noConfusion h
  | cons a l ih =>
    intro c h
    rw [List.dropWhile_cons] at h
    by_cases hp : p a
    · rw [if_pos hp] at h
      exact ih c h
    · rw [if_neg hp] at h
      injection h with hh
      subst hh
      exact Bool.eq_false_iff.mpr hp

theorem trimChars_head {l : List Char} {c : Char}
    (h : (trimChars l).head? = some c) : jsWhitespace c = false := by
  unfold trimChars at h
  rw [List.head?_reverse] at h
  rcases hs : ((l.dropWhile jsWhitespace).reverse.dropWhile jsWhitespace) with _ | ⟨a, t⟩
  · rw [hs] at h
    exact Option.noConfusion h
  · rw [hs] at h
    rcases @List.dropWhile_suffix _ ((l.dropWhile jsWhitespace).reverse) jsWhitespace
      with ⟨pre, hpre⟩
    rw [hs] at hpre
    have hz : ((l.dropWhile jsWhitespace).reverse).getLast? = some c := by
      rw [← hpre, List.getLast?_append, h]
      rfl
    rw [List.getLast?_reverse] at hz
    exact dropWhile_head_not jsWhitespace l c hz

theorem trimChars_getLast {l : List Char} {c : Char}
    (h : (trimChars l).getLast? = some c) : jsWhitespace c = false := by
  unfold trimChars at h
  rw [List.getLast?_reverse] at h
  exact dropWhile_head_not jsWhitespace _ c h

theorem collapseWs_ne_nil : ∀ {l : List Char}, l ≠ [] → collapseWs l ≠ [] := by
  intro l
  induction l with
  | nil => intro h; exact absurd rfl h
  | cons a l ih =>
    intro _
    cases l with
    | nil =>
      rw [collapseWs]
      by_cases ha : jsWhitespace a
      · rw [if_pos ha]; simp
      · rw [if_neg ha]; simp
    | cons d t =>
      rw [collapseWs]
      by_cases ha : jsWhitespace a
      · rw [if_pos ha]
        by_cases hd : jsWhitespace d
        · rw [if_pos hd]
          exact ih (by simp)
        · rw [if_neg hd]
          simp
      · rw [if_neg ha]
        simp

theorem collapseWs_head : ∀ {l : List Char} {c : Char}, l.head? = some c →
    jsWhitespace c = false → (collapseWs l).head? = some c := by
  intro l c hh hc
  cases l with
  | nil => exact Option.noConfusion hh
  | cons a l =>
    injection hh with hh
    subst hh
    cases l with
    | nil =>
      rw [collapseWs, if_neg (by rw [hc]; exact Bool.false_ne_true)]
      rfl
    | cons d t =>
      rw [collapseWs, if_neg (by rw [hc]; exact Bool.false_ne_true)]
      rfl

theorem collapseWs_getLast : ∀ {l : List Char} {c : Char}, l.getLast? = some c →
    jsWhitespace c = false → (collapseWs l).getLast? = some c := by
  intro l
  induction l with
  | nil => intro c h; exact Option.noConfusion h
  | cons a l ih =>
    intro c hl hc
    cases l with
    | nil =>
      rw [List.getLast?_singleton] at hl
      injection hl with hl
      subst hl
      rw [collapseWs, if_neg (by rw [hc]; exact Bool.false_ne_true)]
      exact List.getLast?_singleton _
    | cons d t =>
      rw [List.getLast?_cons_cons] at hl
      have htail : (collapseWs (d :: t)).getLast? = some c := ih hl hc
      have hne : collapseWs (d :: t) ≠ [] := collapseWs_ne_nil (by simp)
      rcases hM : collapseWs (d :: t) with _ | ⟨m, mt⟩
      · exact absurd hM hne
      · rw [hM] at htail
        rw [collapseWs]
        by_cases ha : jsWhitespace a
        · rw [if_pos ha]
          by_cases hd : jsWhitespace d
          · rw [if_pos hd, hM]
            exact htail
          · rw [if_neg hd, hM, List.getLast?_cons_cons]
            exact htail
        · rw [if_neg ha, hM, List.getLast?_cons_cons]
          exact htail

/-- A list with non-whitespace edges is unchanged by `trimChars`. -/
theorem trimChars_eq_self {l : List Char}
    (hh : ∀ c, l.head? = some c → jsWhitespace c = false)
    (hl : ∀ c, l.getLast? = some c → jsWhitespace c = false) : trimChars l = l := by
  have hdrop : ∀ (m : List Char), (∀ c, m.head? = some c → jsWhitespace c = false) →
      m.dropWhile jsWhitespace = m := by
    intro m hm
    cases m with
    | nil => rfl
    | cons a t =>
      rw [List.dropWhile_cons, if_neg]
      rw [hm a rfl]
      exact Bool.false_ne_true
  unfold trimChars
  rw [hdrop l hh, hdrop l.reverse
    (by intro c h; rw [List.head?_reverse] at h; exact hl c h),
    List.reverse_reverse]

/-- The head of the normalized character list is never whitespace. -/
theorem normalized_head_not_ws {l : List Char} {c : Char}
    (h : (collapseWs (trimChars l)).head? = some c) : jsWhitespace c = false := by
  rcases ht : trimChars l with _ | ⟨a, t⟩
  · rw [ht] at h
    exact Option.noConfusion h
  · rw [ht] at h
    have ha : jsWhitespace a = false := @trimChars_head l a (by rw [ht]; rfl)
    rw [@collapseWs_head (a :: t) a rfl ha] at h
    injection h with hh
    subst hh
    exact ha

/-- The last character of the normalized character list is never
whitespace. -/
theorem normalized_getLast_not_ws {l : List Char} {c : Char}
    (h : (collapseWs (trimChars l)).getLast? = some c) : jsWhitespace c = false := by
  rcases ht : (trimChars l).getLast? with _ | d
  · rw [List.getLast?_eq_none_iff] at ht
    rw [ht] at h
    exact Option.noConfusion h
  · have hd : jsWhitespace d = false := trimChars_getLast ht
    rw [collapseWs_getLast ht hd] at h
    injection h with hh
    subst hh
    exact hd

theorem terminal_not_ws {c : Char} (h : terminalChar c = true) :
    jsWhitespace c = false := by
  unfold terminalChar at h
  rcases Bool.or_eq_true_iff.mp h with h1 | h1
  · rcases Bool.or_eq_true_iff.mp h1 with h2 | h2
    · rw [eq_of_beq h2]; decide
    · rw [eq_of_beq h2]; decide
  · rw [eq_of_beq h1]; decide

/-- When the normalized string starts with a non-terminal character, the
regex match is exactly the truncation at the first terminal mark, and the
final `.trim()` is the identity on it. -/
theorem normalizeSentence_eq_trunc (s : String) (c : Char) (cs : List Char)
    (hn : collapseWs (trimChars s.data) = c :: cs) (hc : terminalChar c = false) :
    normalizeSentence s =
      String.mk (truncAtFirstTerminal (collapseWs (trimChars s.data))) := by
  have hpc : (!terminalChar c) = true := by rw [hc]; rfl
  have htw : ((c :: cs).takeWhile fun x => !terminalChar x) =
      c :: (cs.takeWhile fun x => !terminalChar x) := by
    rw [List.takeWhile_cons, if_pos hpc]
  have hfs : firstSentence (collapseWs (trimChars s.data)) =
      some (truncAtFirstTerminal (collapseWs (trimChars s.data))) := by
    unfold firstSentence truncAtFirstTerminal
    rw [hn, htw]
    rw [if_neg (by simp)]
  have hedge : trimChars (truncAtFirstTerminal (collapseWs (trimChars s.data))) =
      truncAtFirstTerminal (collapseWs (trimChars s.data)) := by
    apply trimChars_eq_self
    · intro d hd
      unfold truncAtFirstTerminal at hd
      rw [hn, htw] at hd
      rw [List.head?_append] at hd
      simp only [List.head?_cons, Option.or] at hd
      injection hd with hd
      subst hd
      exact normalized_head_not_ws (by rw [hn]; rfl)
    · intro d hd
      unfold truncAtFirstTerminal at hd
      rcases hdw : ((collapseWs (trimChars s.data)).dropWhile fun x => !terminalChar x)
        with _ | ⟨e, t⟩
      · rw [hdw] at hd
        have hta : ((collapseWs (trimChars s.data)).takeWhile fun x => !terminalChar x) =
            collapseWs (trimChars s.data) := by
          have := List.takeWhile_append_dropWhile (fun x => !terminalChar x)
            (collapseWs (trimChars s.data))
          rw [hdw, List.append_nil] at this
          exact this
        rw [hta] at hd
        simp only [List.take_nil, List.append_nil] at hd
        exact normalized_getLast_not_ws hd
      · rw [hdw] at hd
        simp only [List.take_succ_cons, List.take_zero] at hd
        rw [List.getLast?_concat] at hd
        injection hd with hd
        subst hd
        have he : (!terminalChar e) = false :=
          dropWhile_head_not _ _ e (by rw [hdw]; rfl)
        refine terminal_not_ws ?_
        cases hb : terminalChar e with
        | false =>
          rw [hb] at he
          exact absurd he (by simp)
        | true => rfl
  unfold normalizeSentence
  rw [hfs]
  show String.mk (trimChars (truncAtFirstTerminal (collapseWs (trimChars s.data)))) = _
  rw [hedge]

/-- When the normalized string contains no terminal punctuation at all,
`normalizeSentence` returns it whole. -/
theorem normalizeSentence_no_terminal (s : String)
    (h : ∀ c ∈ collapseWs (trimChars s.data), terminalChar c = false) :
    normalizeSentence s = String.mk (collapseWs (trimChars s.data)) := by
  have hall : ∀ c ∈ collapseWs (trimChars s.data), (fun x => !terminalChar x) c = true := by
    intro c hc
    show (!terminalChar c) = true
    rw [h c hc]
    rfl
  have htw : ((collapseWs (trimChars s.data)).takeWhile fun x => !terminalChar x) =
      collapseWs (trimChars s.data) := List.takeWhile_eq_self_iff.mpr hall
  have hdw : ((collapseWs (trimChars s.data)).dropWhile fun x => !terminalChar x) = [] :=
    List.dropWhile_eq_nil_iff.mpr hall
  rcases hn : collapseWs (trimChars s.data) with _ | ⟨c, cs⟩
  · unfold normalizeSentence firstSentence
    rw [hn]
    rfl
  · unfold normalizeSentence firstSentence
    rw [hn] at htw hdw ⊢
    rw [htw, hdw, if_neg (by simp)]
    have hedge : trimChars (c :: cs) = c :: cs := by
      apply trimChars_eq_self
      · intro d hd
        exact normalized_head_not_ws (by rw [hn]; exact hd)
      · intro d hd
        exact normalized_getLast_not_ws (by rw [hn]; exact hd)
    show String.mk (trimChars (c :: cs ++ List.take 1 [])) = _
    rw [List.take_nil, List.append_nil, hedge]

/-- When the normalized string begins with a terminal punctuation mark, the
anchored regex does not match (it requires at least one non-terminal
character), so `normalizeSentence` returns the whole normalized string
unchanged. -/
theorem normalizeSentence_terminal_head (s : String) (c : Char) (cs : List Char)
    (hn : collapseWs (trimChars s.data) = c :: cs) (hc : terminalChar c = true) :
    normalizeSentence s = String.mk (collapseWs (trimChars s.data)) := by
  have htw : ((c :: cs).takeWhile fun x => !terminalChar x) = [] := by
    rw [List.takeWhile_cons, if_neg (by simp [hc])]
  have hfs : firstSentence (collapseWs (trimChars s.data)) = none := by
    unfold firstSentence
    rw [hn, htw]
    rw [if_pos (show ([] : List Char).isEmpty = true from rfl)]
  unfold normalizeSentence
  rw [hfs]

/-! ### Concrete page environments -/

/-- A page world where every page analyzes cleanly to one issue. -/
def pageEnvOk : PageEnv where
  apiKeyPresent := true
  fetchPage := fun u => .ok ("<html>" ++ u ++ "</html>")
  cleanHtml := fun h => h
  llm := fun _ _ => .ok [⟨"Missing title tag", .high, "Add a title tag."⟩]

/-- A page world where `http://bad.x` fails to fetch with a timeout and
every other page succeeds with no issues. -/
def pageEnvMixed : PageEnv where
  apiKeyPresent := true
  fetchPage := fun u =>
    if u = "http://bad.x" then .error (.err "Failed to fetch page content: timeout")
    else .ok "html"
  cleanHtml := fun h => h
  llm := fun _ _ => .ok []

/-- A page world with no `OPENAI_API_KEY` configured. -/
def pageEnvNoKey : PageEnv where
  apiKeyPresent := false
  fetchPage := fun _ => .ok "html"
  cleanHtml := fun h => h
  llm := fun _ _ => .ok []

/-- A page world whose extraction step throws a rate-limit-flagged error. -/
def pageEnvRate : PageEnv where
  apiKeyPresent := true
  fetchPage := fun _ => .ok "html"
  cleanHtml := fun h => h
  llm := fun _ _ => .err "rate limit exceeded"

theorem enum_snd_mem {α : Type _} {l : List α} {p : ℕ × α} (h : p ∈ l.enum) : p.2 ∈ l := by
  rcases p with ⟨i, x⟩
  rcases List.mem_enumFrom h with ⟨_, _, hx⟩
  rw [hx]
  exact List.getElem_mem _

/-! ## Claim theorems -/

/-- C1: for every environment, base URL, sitemap path and limit, the list
returned by `analyzeSitemap` has length at most `limit` (the budget is
checked before each append across the entire traversal); at the CLI
boundary `limitSchema` accepts exactly the integers in `[1, 100]`, so
`limit = 0` is rejected by input validation. -/
theorem C1_analyzeSitemap_length_le_limit :
    (∀ (env : CrawlEnv) (baseUrl sitemapPath : String) (limit : ℕ)
        (rs : List SitemapResult),
      analyzeSitemap env baseUrl sitemapPath limit = .ok rs → rs.length ≤ limit)
    ∧ limitSchemaCheck 0 = false
    ∧ limitSchemaCheck 1 = true
    ∧ limitSchemaCheck 100 = true
    ∧ (∀ q : ℚ, limitSchemaCheck q = true → q.den = 1 ∧ 1 ≤ q ∧ q ≤ 100) := by
  refine ⟨?_, by decide, by decide, by decide, ?_⟩
  · intro env baseUrl sitemapPath limit rs h
    unfold analyzeSitemap at h
    rcases hr : runCrawl env limit [⟨baseUrl, some sitemapPath⟩] initialCrawlState
      with e | st
    · rw [hr] at h
      exact Except.noConfusion h
    · rw [hr] at h
      injection h with hh
      rw [← hh]
      exact runCrawl_length_le env limit _ initialCrawlState (Nat.zero_le _) st hr
  · intro q h
    unfold limitSchemaCheck at h
    rcases Bool.and_eq_true_iff.mp h with ⟨h1, h3⟩
    rcases Bool.and_eq_true_iff.mp h1 with ⟨h0, h2⟩
    exact ⟨eq_of_beq h0, of_decide_eq_true h2, of_decide_eq_true h3⟩

/-- Witness for C1 at the five-entry leaf sitemap with `limit = 3`. -/
theorem C1_witness :
    ([⟨"http://a.x/p1", none⟩, ⟨"http://a.x/p2", none⟩, ⟨"http://a.x/p3", none⟩]
      : List SitemapResult).length ≤ 3 ∧ (50 : ℚ).den = 1 ∧ 1 ≤ (50 : ℚ) ∧ (50 : ℚ) ≤ 100 :=
  ⟨C1_analyzeSitemap_length_le_limit.1 envLeaf5 "http://a.x" "/sitemap.xml" 3 _
    (by rw [analyzeSitemap, runCrawlFuel_sound envLeaf5 3 20
        [⟨"http://a.x", some "/sitemap.xml"⟩] initialCrawlState (.ok leaf5State)
        (by decide)]
        rfl),
   C1_analyzeSitemap_length_le_limit.2.2.2.2 50 (by decide)⟩

/-- C2: the traversal always terminates (`runCrawl` is a total function,
defined by well-founded recursion on the unvisited portion of the finite
web) and deduplicates: each resolved sitemap document URL is added to the
visited set before its fetch and fetched at most once per top-level call
(the fetch log is duplicate-free); concretely, the self-referencing index
`A -> A` returns `[]` after one fetch, and with `A -> B, B` the child `B`
is fetched exactly once. -/
theorem C2_visited_set_dedupes_and_terminates :
    (∀ (env : CrawlEnv) (limit : ℕ) (frames : List Frame) (st st' : CrawlState),
        runCrawl env limit frames st = .ok st' → st.fetched.Nodup →
        (∀ u ∈ st.fetched, u ∈ st.visitedUrls) → st'.fetched.Nodup)
    ∧ (∀ (env : CrawlEnv) (f : Frame) (visited : List String) (out : FrameOut)
        (v' fl : List String) (u : String),
        processFrame env f visited = .ok (out, v', fl) → u ∈ fl →
        u ∈ v' ∧ u ∉ visited)
    ∧ runCrawl envSelf 10 [⟨"http://a.x", some "/sitemap.xml"⟩] initialCrawlState =
        .ok ⟨[], ["http://a.x/sitemap.xml"], ["http://a.x/sitemap.xml"]⟩
    ∧ runCrawl envDup 10 [⟨"http://a.x", some "/sitemap.xml"⟩] initialCrawlState =
        .ok dupState
    ∧ dupState.fetched.count "http://a.x/b.xml" = 1 := by
  refine ⟨fun env limit frames st st' hr hnd hsub =>
    runCrawl_fetched_nodup env limit frames st hnd hsub st' hr, ?_, ?_, ?_, by decide⟩
  · intro env f visited out v' fl u h hu
    rcases processFrame_ok h with ⟨_, _, hfl⟩ | ⟨hnm, _, hv, hfl, _⟩
    · rw [hfl] at hu
      exact absurd hu (List.not_mem_nil u)
    · rw [hfl, List.mem_singleton] at hu
      subst hu
      rw [hv]
      exact ⟨List.mem_cons_self _ _, hnm⟩
  · exact runCrawlFuel_sound envSelf 10 20 _ _ _ (by decide)
  · exact runCrawlFuel_sound envDup 10 20 _ _ _ (by decide)

/-- Witness for C2: the fetch log of the duplicate-listing crawl is
duplicate-free. -/
theorem C2_witness : dupState.fetched.Nodup :=
  C2_visited_set_dedupes_and_terminates.1 envDup 10
    [⟨"http://a.x", some "/sitemap.xml"⟩] initialCrawlState dupState
    (runCrawlFuel_sound envDup 10 20 _ _ _ (by decide))
    List.nodup_nil (by intro u hu; exact absurd hu (List.not_mem_nil u))

/-- C5: the list returned by `analyzeSitemap` is the pre-order, depth-first,
left-to-right flattening of the sitemap-index tree (the deduplicating
unbudgeted traversal `runFlatten`) truncated at the limit; in particular a
leaf sitemap with 5 entries and `limit = 3` yields exactly the first 3
entries in document order. -/
theorem C5_preorder_flatten_truncated :
    (∀ (env : CrawlEnv) (baseUrl sitemapPath : String) (limit : ℕ) (fin : CrawlState),
        runFlatten env [⟨baseUrl, some sitemapPath⟩] initialCrawlState = .ok fin →
        analyzeSitemap env baseUrl sitemapPath limit = .ok (fin.results.take limit))
    ∧ analyzeSitemap envLeaf5 "http://a.x" "/sitemap.xml" 3 =
        .ok [⟨"http://a.x/p1", none⟩, ⟨"http://a.x/p2", none⟩, ⟨"http://a.x/p3", none⟩]
    ∧ runFlatten envLeaf5 [⟨"http://a.x", some "/sitemap.xml"⟩] initialCrawlState =
        .ok leaf5StateAll
    ∧ leaf5StateAll.results.take 3 =
        [⟨"http://a.x/p1", none⟩, ⟨"http://a.x/p2", none⟩, ⟨"http://a.x/p3", none⟩] := by
  refine ⟨?_, ?_, ?_, by decide⟩
  · intro env baseUrl sitemapPath limit fin hflat
    rcases runCrawl_refines_flatten env limit [⟨baseUrl, some sitemapPath⟩]
        initialCrawlState fin hflat initialCrawlState rfl rfl
        (by show ([] : List SitemapResult) = List.take limit []
            rw [List.take_nil])
        (fun _ => rfl) with ⟨stl', hcr, hres⟩
    unfold analyzeSitemap
    rw [hcr]
    exact congrArg Except.ok hres
  · rw [analyzeSitemap, runCrawlFuel_sound envLeaf5 3 20
      [⟨"http://a.x", some "/sitemap.xml"⟩] initialCrawlState (.ok leaf5State)
      (by decide)]
    rfl
  · exact runFlattenFuel_sound envLeaf5 20 _ _ _ (by decide)

/-- Witness for C5: the refinement instantiated at the concrete leaf
sitemap. -/
theorem C5_witness :
    analyzeSitemap envLeaf5 "http://a.x" "/sitemap.xml" 3 =
      .ok (leaf5StateAll.results.take 3) :=
  C5_preorder_flatten_truncated.1 envLeaf5 "http://a.x" "/sitemap.xml" 3 leaf5StateAll
    (runFlattenFuel_sound envLeaf5 20 _ _ _ (by decide))

/-- C6 counterexample: on the input `"!no"` (whose normalized form begins
with a terminal punctuation mark) `normalizeSentence` returns the whole
string, not the claimed truncation `"!"` at the first terminal mark. -/
theorem C6_counterexample :
    normalizeSentence "!no" = "!no" ∧
    String.mk (truncAtFirstTerminal (collapseWs (trimChars "!no".data))) = "!" ∧
    ("!no" : String) ≠ "!" := by
  exact ⟨by decide, by decide, by decide⟩

/-- C6 (amended): `normalizeSentence` trims, collapses whitespace runs, and
truncates at the first sentence-terminal punctuation mark inclusive,
provided the normalized string starts with a non-terminal character; a
normalized string that begins with a terminal punctuation mark is returned
whole, as is one containing no terminal punctuation at all.  The two spec
examples hold as stated. -/
theorem C6_normalizeSentence_amended :
    (∀ (s : String) (c : Char) (cs : List Char),
        collapseWs (trimChars s.data) = c :: cs → terminalChar c = false →
        normalizeSentence s =
          String.mk (truncAtFirstTerminal (collapseWs (trimChars s.data))))
    ∧ (∀ (s : String) (c : Char) (cs : List Char),
        collapseWs (trimChars s.data) = c :: cs → terminalChar c = true →
        normalizeSentence s = String.mk (collapseWs (trimChars s.data)))
    ∧ (∀ s : String, (∀ c ∈ collapseWs (trimChars s.data), terminalChar c = false) →
        normalizeSentence s = String.mk (collapseWs (trimChars s.data)))
    ∧ normalizeSentence " Hello   world.  Extra stuff " = "Hello world."
    ∧ normalizeSentence "no punctuation here" = "no punctuation here" :=
  ⟨normalizeSentence_eq_trunc, normalizeSentence_terminal_head,
    normalizeSentence_no_terminal, by decide, by decide⟩

/-- Witness for C6 at the inputs `" Hi. x"` (truncated at the period) and
`"!stop."` (terminal head: returned whole). -/
theorem C6_witness :
    (normalizeSentence " Hi. x" =
      String.mk (truncAtFirstTerminal (collapseWs (trimChars " Hi. x".data))))
    ∧ normalizeSentence "!stop." = String.mk (collapseWs (trimChars "!stop.".data)) :=
  ⟨C6_normalizeSentence_amended.1 " Hi. x" 'H' ['i', '.', ' ', 'x']
      (by decide) (by decide),
   C6_normalizeSentence_amended.2.1 "!stop." '!' ['s', 't', 'o', 'p', '.']
      (by decide) (by decide)⟩

/-- C7: the shape discriminator validates against the sitemap-index schema
first and treats the document as a leaf sitemap if and only if that
validation fails; malformed XML yields a parse error carrying the
underlying parser message, and a well-formed document matching neither
shape yields a schema-validation error. -/
theorem C7_shape_discriminator :
    (∀ (vu : String → Bool) (v : JsonValue),
        isSitemapIndex vu v = true ↔ ∃ es, sitemapIndexSchemaParse vu v = some es)
    ∧ (∀ (vu : String → Bool) (v : JsonValue) (es : List SitemapIndexEntry),
        sitemapIndexSchemaParse vu v = some es → classifySitemap vu v = .ok (.index es))
    ∧ (∀ (vu : String → Bool) (v : JsonValue) (es : List SitemapUrlEntry),
        sitemapIndexSchemaParse vu v = none → sitemapSchemaParse vu v = some es →
        classifySitemap vu v = .ok (.leaf es))
    ∧ (∀ (vu : String → Bool) (v : JsonValue),
        sitemapIndexSchemaParse vu v = none → sitemapSchemaParse vu v = none →
        classifySitemap vu v = .error zodErrorMsg)
    ∧ (∀ (env : CrawlEnv) (xml m : String),
        env.xmlParse xml = .error m →
        parseSitemap env xml = .error ("Failed to parse XML: " ++ m))
    ∧ (∀ (vu : String → Bool) (v : JsonValue) (d : SitemapDoc),
        isSitemapIndex vu v = false → classifySitemap vu v = .ok d →
        ∃ es, d = .leaf es) := by
  refine ⟨?_, ?_, ?_, ?_, ?_, ?_⟩
  · intro vu v
    unfold isSitemapIndex
    constructor
    · intro h
      rcases hp : sitemapIndexSchemaParse vu v with _ | es
      · rw [hp] at h
        exact absurd h (by simp [Option.isSome])
      · exact ⟨es, rfl⟩
    · intro ⟨es, hp⟩
      rw [hp]
      rfl
  · intro vu v es hp
    unfold classifySitemap
    rw [hp]
  · intro vu v es hi hl
    unfold classifySitemap
    rw [hi, hl]
  · intro vu v hi hl
    unfold classifySitemap
    rw [hi, hl]
  · intro env xml m h
    unfold parseSitemap
    rw [h]
  · intro vu v d hi hc
    unfold isSitemapIndex at hi
    rcases hp : sitemapIndexSchemaParse vu v with _ | es
    · unfold classifySitemap at hc
      rw [hp] at hc
      rcases hl : sitemapSchemaParse vu v with _ | es2
      · rw [hl] at hc
        exact Except.noConfusion hc
      · rw [hl] at hc
        injection hc with hc
        exact ⟨es2, hc.symm⟩
    · rw [hp] at hi
      exact absurd hi (by simp [Option.isSome])

/-- Witness for C7 at a concrete index document, leaf document, and
unclassifiable document. -/
theorem C7_witness :
    classifySitemap (fun _ => true) selfIdxJson =
        .ok (.index [⟨"http://a.x/sitemap.xml", none⟩]) ∧
    classifySitemap (fun _ => true) leafBJson = .ok (.leaf [⟨"http://a.x/pb", none, none, none⟩]) ∧
    classifySitemap (fun _ => true) (.str "bogus") = .error zodErrorMsg ∧
    parseSitemap envLeaf5 "garbage" = .error ("Failed to parse XML: " ++ "bad") :=
  ⟨C7_shape_discriminator.2.1 (fun _ => true) selfIdxJson _ (by decide),
   C7_shape_discriminator.2.2.1 (fun _ => true) leafBJson _ (by decide) (by decide),
   C7_shape_discriminator.2.2.2.1 (fun _ => true) (.str "bogus") (by decide) (by decide),
   C7_shape_discriminator.2.2.2.2.1 envLeaf5 "garbage" "bad" rfl⟩

/-- C8: the crawler has no partial-failure recovery: an unsuccessful HTTP
response (surfacing status code and status text) or a parse failure at any
reached document aborts the entire `analyzeSitemap` call with that error;
no partial result list is returned. -/
theorem C8_no_partial_recovery :
    (∀ (env : CrawlEnv) (limit : ℕ) (f : Frame) (rest : List Frame) (st : CrawlState)
        (status : ℕ) (statusText : String),
        st.results.length < limit →
        resolveSitemapUrl env f.url f.path ∉ st.visitedUrls →
        fetchUrl env (resolveSitemapUrl env f.url f.path) = .httpError status statusText →
        runCrawl env limit (f :: rest) st =
          .error ("Failed to fetch sitemap: " ++ toString status ++ " " ++ statusText))
    ∧ (∀ (env : CrawlEnv) (limit : ℕ) (f : Frame) (rest : List Frame) (st : CrawlState)
        (body m : String),
        st.results.length < limit →
        resolveSitemapUrl env f.url f.path ∉ st.visitedUrls →
        fetchUrl env (resolveSitemapUrl env f.url f.path) = .ok body →
        env.xmlParse body = .error m →
        runCrawl env limit (f :: rest) st = .error ("Failed to parse XML: " ++ m))
    ∧ (∀ (env : CrawlEnv) (baseUrl sitemapPath : String) (limit : ℕ) (e : String),
        runCrawl env limit [⟨baseUrl, some sitemapPath⟩] initialCrawlState = .error e →
        analyzeSitemap env baseUrl sitemapPath limit = .error e) := by
  refine ⟨?_, ?_, ?_⟩
  · intro env limit f rest st status statusText hlen hnm hfe
    have hpf : processFrame env f st.visitedUrls =
        .error ("Failed to fetch sitemap: " ++ toString status ++ " " ++ statusText) := by
      unfold processFrame
      rw [if_neg hnm]
      unfold fetchSitemap
      rw [hfe]
    rw [runCrawl_cons, if_neg (by omega), hpf]
  · intro env limit f rest st body m hlen hnm hfe hxp
    have hpf : processFrame env f st.visitedUrls =
        .error ("Failed to parse XML: " ++ m) := by
      unfold processFrame
      rw [if_neg hnm]
      unfold fetchSitemap
      rw [hfe]
      show (match parseSitemap env body with
        | Except.error e => Except.error e
        | Except.ok parsed =>
          match classifySitemap env.validUrl parsed with
          | Except.error e => Except.error e
          | Except.ok (SitemapDoc.index es) =>
            Except.ok (FrameOut.index (es.map (childFrame env)),
              resolveSitemapUrl env f.url f.path :: st.visitedUrls,
              [resolveSitemapUrl env f.url f.path])
          | Except.ok (SitemapDoc.leaf es) =>
            Except.ok (FrameOut.leaf es,
              resolveSitemapUrl env f.url f.path :: st.visitedUrls,
              [resolveSitemapUrl env f.url f.path])) = _
      have hps : parseSitemap env body = .error ("Failed to parse XML: " ++ m) := by
        unfold parseSitemap
        rw [hxp]
      rw [hps]
    rw [runCrawl_cons, if_neg (by omega), hpf]
  · intro env baseUrl sitemapPath limit e h
    unfold analyzeSitemap
    rw [h]
    rfl

/-- Witness for C8: a world whose only sitemap URL answers 500. -/
theorem C8_witness :
    runCrawl
      ⟨[("http://a.x/sitemap.xml", .httpError 500 "Internal Server Error")],
        fun _ => .error "bad", fun p b => b ++ p, fun _ => "http://a.x",
        fun u => u.drop 10, fun _ => true⟩
      10 [⟨"http://a.x", some "/sitemap.xml"⟩] initialCrawlState =
      .error ("Failed to fetch sitemap: " ++ toString 500 ++ " " ++ "Internal Server Error") :=
  C8_no_partial_recovery.1
    ⟨[("http://a.x/sitemap.xml", .httpError 500 "Internal Server Error")],
      fun _ => .error "bad", fun p b => b ++ p, fun _ => "http://a.x",
      fun u => u.drop 10, fun _ => true⟩
    10 ⟨"http://a.x", some "/sitemap.xml"⟩ [] initialCrawlState 500 "Internal Server Error"
    (by decide) (by decide) (by decide)

/-- C3: every per-page failure that is not credential-classified is
contained: the task still completes, appending exactly one synthetic issue
`Failed to analyze page: <message>` of severity High whose advisory is the
concurrency-reduction guidance if and only if the message mentions rate
limiting (otherwise the generic URL-accessibility guidance), reporting
`onComplete(url, 1)`; and an orchestrator run all of whose tasks are
non-fatal always resolves, so a failing page never prevents the others. -/
theorem C3_per_page_failure_contained :
    (∀ (env : PageEnv) (maxIssues : ℕ) (url m : String),
        analyzePage env url maxIssues = .error (.err m) → isFatalMsg m = false →
        analyzePageWithErrorHandling env maxIssues url =
          .done (syntheticErrorResult url m) 1)
    ∧ (∀ url m : String, (syntheticErrorResult url m).issues =
        [⟨"Failed to analyze page: " ++ m, .high,
          if strIncludes m "rate limit" = true then rateLimitFix else genericFix⟩])
    ∧ (∀ url m : String,
        (syntheticErrorResult url m).issues.map SEOIssue.howToFix = [rateLimitFix]
          ↔ strIncludes m "rate limit" = true)
    ∧ (∀ (env : PageEnv) (maxIssues : ℕ) (url m : String),
        analyzePage env url maxIssues = .error (.err m) → isFatalMsg m = false →
        taskCount env maxIssues url = 1)
    ∧ (∀ (env : PageEnv) (maxIssues : ℕ) (urls : List String) (order : List ℕ),
        (∀ i ∈ order, ∀ url, urls[i]? = some url →
          ∀ m, analyzePageWithErrorHandling env maxIssues url ≠ .fatal m) →
        ∃ rs, analyzePages env maxIssues urls order = .ok rs) := by
  have hdone : ∀ (env : PageEnv) (maxIssues : ℕ) (url m : String),
      analyzePage env url maxIssues = .error (.err m) → isFatalMsg m = false →
      analyzePageWithErrorHandling env maxIssues url =
        .done (syntheticErrorResult url m) 1 := by
    intro env maxIssues url m h hf
    unfold analyzePageWithErrorHandling
    simp only [h]
    rw [if_neg (by simp [hf])]
  refine ⟨hdone, fun url m => rfl, ?_, ?_, ?_⟩
  · intro url m
    unfold syntheticErrorResult
    by_cases hrl : strIncludes m "rate limit" = true
    · rw [if_pos hrl]
      simp [hrl]
    · rw [if_neg hrl]
      simp only [List.map_cons, List.map_nil]
      constructor
      · intro hh
        injection hh with hh
        exact absurd hh.symm (by decide)
      · intro hh
        exact absurd hh hrl
  · intro env maxIssues url m h hf
    unfold taskCount
    rw [hdone env maxIssues url m h hf]
  · intro env maxIssues urls order hnf
    exact runSched_ok_of_no_fatal env maxIssues urls order [] hnf

/-- Witness for C3: a timed-out fetch yields the generic-advisory synthetic
issue and an issue count of one. -/
theorem C3_witness :
    analyzePageWithErrorHandling pageEnvMixed 3 "http://bad.x" =
      .done (syntheticErrorResult "http://bad.x" "Failed to fetch page content: timeout") 1 ∧
    taskCount pageEnvMixed 3 "http://bad.x" = 1 ∧
    (syntheticErrorResult "http://bad.x" "Failed to fetch page content: timeout").issues.map
      SEOIssue.howToFix = [genericFix] :=
  ⟨C3_per_page_failure_contained.1 pageEnvMixed 3 "http://bad.x"
      "Failed to fetch page content: timeout" (by decide) (by decide),
   C3_per_page_failure_contained.2.2.2.1 pageEnvMixed 3 "http://bad.x"
      "Failed to fetch page content: timeout" (by decide) (by decide),
   by decide⟩

/-- C4: a fatal credential-classified failure (missing `OPENAI_API_KEY` or
invalid API key) during any single page's analysis propagates out of the
whole `analyzePages` call instead of being recorded as a per-page issue,
and this is the only per-task failure class that escalates. -/
theorem C4_fatal_credential_escalation :
    (isFatalMsg missingKeyMsg = true ∧ isFatalMsg invalidKeyMsg = true)
    ∧ (∀ (env : PageEnv) (maxIssues : ℕ) (url html : String),
        env.fetchPage url = .ok html → env.apiKeyPresent = false →
        analyzePageWithErrorHandling env maxIssues url = .fatal missingKeyMsg)
    ∧ (∀ (env : PageEnv) (maxIssues : ℕ) (urls : List String) (order : List ℕ)
        (i : ℕ) (url m : String),
        i ∈ order → urls[i]? = some url →
        analyzePageWithErrorHandling env maxIssues url = .fatal m →
        ∃ m', analyzePages env maxIssues urls order = .error m' ∧
          ∃ (j : ℕ) (url' : String), urls[j]? = some url' ∧
            analyzePageWithErrorHandling env maxIssues url' = .fatal m')
    ∧ (∀ (env : PageEnv) (maxIssues : ℕ) (url m : String),
        analyzePageWithErrorHandling env maxIssues url = .fatal m →
        isFatalMsg m = true) := by
  refine ⟨⟨by decide, by decide⟩, ?_, ?_, ?_⟩
  · intro env maxIssues url html hf hk
    have hp : analyzePage env url maxIssues = .error (.err missingKeyMsg) := by
      unfold analyzePage
      rw [hf, exceptBind_ok]
      have hs : analyzeSEOIssues env url (env.cleanHtml html) maxIssues =
          .error (.err missingKeyMsg) := by
        unfold analyzeSEOIssues
        rw [if_pos hk]
      rw [hs, exceptBind_error]
    unfold analyzePageWithErrorHandling
    simp only [hp]
    rw [if_pos (by decide)]
  · intro env maxIssues urls order i url m hi hg ho
    exact runSched_fatal env maxIssues urls order [] i url m hi hg ho
  · intro env maxIssues url m h
    unfold analyzePageWithErrorHandling at h
    rcases hp : analyzePage env url maxIssues with e | r
    · cases e with
      | err m2 =>
        simp only [hp] at h
        by_cases hf : isFatalMsg m2
        · rw [if_pos hf] at h
          injection h with hh
          rw [← hh]
          exact hf
        · rw [if_neg hf] at h
          exact TaskOutcome.noConfusion h
      | nonError =>
        simp only [hp] at h
        exact TaskOutcome.noConfusion h
    · simp only [hp] at h
      exact TaskOutcome.noConfusion h

/-- Witness for C4: with no API key configured, the first page's analysis
rejects the whole two-page batch. -/
theorem C4_witness :
    analyzePageWithErrorHandling pageEnvNoKey 3 "http://a.x/p1" = .fatal missingKeyMsg ∧
    ∃ m', analyzePages pageEnvNoKey 3 ["http://a.x/p1", "http://a.x/p2"] [0, 1] = .error m' ∧
      ∃ (j : ℕ) (url' : String), (["http://a.x/p1", "http://a.x/p2"][j]?) = some url' ∧
        analyzePageWithErrorHandling pageEnvNoKey 3 url' = .fatal m' :=
  ⟨C4_fatal_credential_escalation.2.1 pageEnvNoKey 3 "http://a.x/p1" "html" rfl rfl,
   C4_fatal_credential_escalation.2.2.1 pageEnvNoKey 3 ["http://a.x/p1", "http://a.x/p2"]
     [0, 1] 0 "http://a.x/p1" missingKeyMsg (by decide) (by decide)
     (C4_fatal_credential_escalation.2.1 pageEnvNoKey 3 "http://a.x/p1" "html" rfl rfl)⟩

/-- Recognizer for the fatal task outcome. -/
def isFatalOutcome : TaskOutcome → Bool
  | .fatal _ => true
  | .done _ _ => false

theorem not_fatal_of_isFatalOutcome_false {x : TaskOutcome}
    (h : isFatalOutcome x = false) : ∀ m, x ≠ .fatal m := by
  intro m hc
  subst hc
  exact absurd h (by simp [isFatalOutcome])

/-- C9: with concurrency 1 the orchestrator fires `onProgress` with indices
`1, 2, ..., total` strictly in input order, and each `onProgress(i+1,
total, url)` fires at admission, immediately before the page work for that
URL begins. -/
theorem C9_progress_admission_order :
    ∀ (env : PageEnv) (maxIssues : ℕ) (urls : List String),
      (∀ url ∈ urls, isFatalOutcome (analyzePageWithErrorHandling env maxIssues url) = false) →
      ((analyzePagesSeq env maxIssues urls).1.filter isProgressEvent =
        urls.enum.map fun p => .progress (p.1+1) urls.length p.2)
      ∧ ∀ (i : ℕ) (url : String), (i, url) ∈ urls.enum →
          ∃ l1 l2, (analyzePagesSeq env maxIssues urls).1 =
            l1 ++ .progress (i+1) urls.length url :: .pageStart url :: l2 := by
  intro env maxIssues urls hnf
  have hnf2 : ∀ p ∈ urls.enum, ∀ m,
      analyzePageWithErrorHandling env maxIssues p.2 ≠ .fatal m :=
    fun p hp => not_fatal_of_isFatalOutcome_false (hnf p.2 (enum_snd_mem hp))
  have htr := runSeq_trace env maxIssues urls.length urls.enum [] [] hnf2
  constructor
  · unfold analyzePagesSeq
    rw [htr]
    simp only [List.nil_append]
    exact filter_progress_flatMap env maxIssues urls.length urls.enum
  · intro i url hmem
    rcases List.append_of_mem hmem with ⟨s, t, hst⟩
    unfold analyzePagesSeq
    rw [htr]
    simp only [List.nil_append]
    rw [hst, List.flatMap_append, List.flatMap_cons]
    exact ⟨s.flatMap (taskTrace env maxIssues urls.length),
      .complete url (taskCount env maxIssues url) ::
        t.flatMap (taskTrace env maxIssues urls.length), rfl⟩

/-- Witness for C9 on a three-URL batch with concurrency 1. -/
theorem C9_witness :
    (analyzePagesSeq pageEnvOk 3 ["u1", "u2", "u3"]).1.filter isProgressEvent =
      [.progress 1 3 "u1", .progress 2 3 "u2", .progress 3 3 "u3"] :=
  ((C9_progress_admission_order pageEnvOk 3 ["u1", "u2", "u3"] (by decide)).1).trans
    (by decide)

/-- C10: whenever `analyzePages` resolves, it returns exactly one result
per input URL: the output length equals the input length and the multiset
of result URLs equals the multiset of input URLs, for every completion
order. -/
theorem C10_one_result_per_url :
    ∀ (env : PageEnv) (maxIssues : ℕ) (urls : List String) (order : List ℕ)
      (rs : List PageAnalysisResult),
      order.Perm (List.range urls.length) →
      analyzePages env maxIssues urls order = .ok rs →
      rs.length = urls.length ∧
      (↑(rs.map PageAnalysisResult.url) : Multiset String) = (↑urls : Multiset String) := by
  intro env maxIssues urls order rs hperm hok
  have hrs := runSched_ok_results env maxIssues urls order [] rs hok
  rw [List.nil_append] at hrs
  have hpf : (order.filterMap fun i => (urls[i]?).map (taskResult env maxIssues)).Perm
      ((List.range urls.length).filterMap
        fun i => (urls[i]?).map (taskResult env maxIssues)) :=
    List.Perm.filterMap _ hperm
  rw [range_filterMap_getElem (taskResult env maxIssues) urls] at hpf
  have hrsperm : rs.Perm (urls.map (taskResult env maxIssues)) := by
    rw [hrs]
    exact hpf
  constructor
  · rw [hrsperm.length_eq, List.length_map]
  · have hmapperm : (rs.map PageAnalysisResult.url).Perm
        ((urls.map (taskResult env maxIssues)).map PageAnalysisResult.url) :=
      hrsperm.map _
    rw [List.map_map] at hmapperm
    have hid : urls.map (PageAnalysisResult.url ∘ taskResult env maxIssues) = urls := by
      have hcg : ∀ u ∈ urls, (PageAnalysisResult.url ∘ taskResult env maxIssues) u = id u :=
        fun u _ => taskResult_url env maxIssues u
      rw [List.map_congr_left hcg, List.map_id]
    rw [hid] at hmapperm
    exact Multiset.coe_eq_coe.mpr hmapperm

/-- Witness for C10 on a two-URL batch completing in reverse order. -/
theorem C10_witness :
    (([⟨"u2", [⟨"Missing title tag", .high, "Add a title tag."⟩]⟩,
       ⟨"u1", [⟨"Missing title tag", .high, "Add a title tag."⟩]⟩]
        : List PageAnalysisResult).length = 2) ∧
    (↑(([⟨"u2", [⟨"Missing title tag", .high, "Add a title tag."⟩]⟩,
        ⟨"u1", [⟨"Missing title tag", .high, "Add a title tag."⟩]⟩]
         : List PageAnalysisResult).map PageAnalysisResult.url) : Multiset String) =
      (↑(["u1", "u2"] : List String) : Multiset String) := by
  have h := C10_one_result_per_url pageEnvOk 3 ["u1", "u2"] [1, 0]
    [⟨"u2", [⟨"Missing title tag", .high, "Add a title tag."⟩]⟩,
     ⟨"u1", [⟨"Missing title tag", .high, "Add a title tag."⟩]⟩]
    (by decide) (by decide)
  exact ⟨h.1, h.2⟩
